import Mathlib

/-!
Verification of the `specfp` WDF codec (`src/specfp/decoders/wdf.py` and
`src/specfp/converters.py`).

Bytes are modelled as `List Nat` (each element intended `< 256`; the
well-formedness predicate `okBytes` records this where a theorem needs it).
IEEE-754 `f32` cells are modelled by their raw 4-byte little-endian bit
patterns: the `construct.Float32l` codec reads and writes exactly those four
bytes, so byte-level round-trip facts are unaffected by the numeric view.
Fallible parsing is modelled with `Except`; a parser consumes a prefix of the
byte list and returns the decoded value together with the unread suffix,
mirroring `construct`'s `parse_stream`.
-/

namespace SpecFP

/-- Little-endian value of a byte list, as `construct`'s `Int32ul`/`Int64ul`
read it. -/
def leVal : List Nat → Nat
  | [] => 0
  | b :: bs => b + 256 * leVal bs

/-- Little-endian encoding of `n` on `w` bytes, as `construct` writes
unsigned integer fields. -/
def leBytes : Nat → Nat → List Nat
  | 0, _ => []
  | w + 1, n => n % 256 :: leBytes w (n / 256)

/-- All bytes of the list are in range (a real byte string). -/
def okBytes (l : List Nat) : Prop := ∀ b ∈ l, b < 256

instance okBytesDec (l : List Nat) : Decidable (okBytes l) :=
  inferInstanceAs (Decidable (∀ b ∈ l, b < 256))

theorem okBytes_append {l1 l2 : List Nat} (h : okBytes (l1 ++ l2)) :
    okBytes l1 ∧ okBytes l2 := by
  constructor
  · intro b hb; exact h b (List.mem_append_left _ hb)
  · intro b hb; exact h b (List.mem_append_right _ hb)

theorem okBytes_take {l : List Nat} (h : okBytes l) (n : Nat) :
    okBytes (l.take n) := by
  intro b hb; exact h b (List.mem_of_mem_take hb)

theorem okBytes_drop {l : List Nat} (h : okBytes l) (n : Nat) :
    okBytes (l.drop n) := by
  intro b hb; exact h b (List.mem_of_mem_drop hb)

theorem leBytes_leVal {l : List Nat} (h : okBytes l) :
    leBytes l.length (leVal l) = l := by
  induction l with
  | nil => rfl
  | cons b bs ih =>
      have hb : b < 256 := h b (List.mem_cons_self _ _)
      have hbs : okBytes bs := fun x hx => h x (List.mem_cons_of_mem _ hx)
      simp only [List.length_cons, leBytes, leVal]
      have h1 : (b + 256 * leVal bs) % 256 = b := by omega
      have h2 : (b + 256 * leVal bs) / 256 = leVal bs := by omega
      rw [h1, h2, ih hbs]

theorem leVal_lt {l : List Nat} (h : okBytes l) : leVal l < 256 ^ l.length := by
  induction l with
  | nil => simp [leVal]
  | cons b bs ih =>
      have hb : b < 256 := h b (List.mem_cons_self _ _)
      have hbs : okBytes bs := fun x hx => h x (List.mem_cons_of_mem _ hx)
      have := ih hbs
      simp only [leVal, List.length_cons, pow_succ]
      calc b + 256 * leVal bs < 256 + 256 * leVal bs := by omega
        _ ≤ 256 * (leVal bs + 1) := by ring_nf; omega
        _ ≤ 256 * 256 ^ bs.length := by
              have : leVal bs + 1 ≤ 256 ^ bs.length := this
              exact Nat.mul_le_mul_left _ this
        _ = 256 ^ bs.length * 256 := by ring

theorem leBytes_length (w n : Nat) : (leBytes w n).length = w := by
  induction w generalizing n with
  | zero => rfl
  | succ w ih => simp [leBytes, ih]

/-- Strip trailing NUL bytes, as `construct.PaddedString` (via `NullStripped`)
does when parsing a fixed-size string field. -/
def rstrip0 (l : List Nat) : List Nat :=
  (l.reverse.dropWhile (· = 0)).reverse

/-- Right-pad with NUL bytes to width `n`, as `construct.PaddedString` /
`FixedSized` do when building a string field. -/
def padTo (n : Nat) (l : List Nat) : List Nat :=
  l ++ List.replicate (n - l.length) 0

theorem rstrip0_length_le (l : List Nat) : (rstrip0 l).length ≤ l.length := by
  unfold rstrip0
  calc (l.reverse.dropWhile (· = 0)).reverse.length
      = (l.reverse.dropWhile (· = 0)).length := List.length_reverse _
    _ ≤ l.reverse.length := (List.dropWhile_sublist _).length_le
    _ = l.length := List.length_reverse _

theorem rstrip0_spec (l : List Nat) :
    rstrip0 l ++ List.replicate (l.length - (rstrip0 l).length) 0 = l := by
  unfold rstrip0
  have hsplit : l.reverse.takeWhile (· = 0) ++ l.reverse.dropWhile (· = 0)
      = l.reverse := List.takeWhile_append_dropWhile _ _
  have hrep : l.reverse.takeWhile (· = 0)
      = List.replicate (l.reverse.takeWhile (· = 0)).length 0 := by
    rw [List.eq_replicate_iff]
    refine ⟨rfl, ?_⟩
    intro b hb
    have h0 := List.mem_takeWhile_imp hb
    simp at h0
    exact h0
  have hlen : (l.reverse.dropWhile (· = 0)).reverse.length
      = (l.reverse.dropWhile (· = 0)).length := List.length_reverse _
  have hcount : l.length - (l.reverse.dropWhile (· = 0)).reverse.length
      = (l.reverse.takeWhile (· = 0)).length := by
    have h1 := congrArg List.length hsplit
    rw [List.length_append, List.length_reverse] at h1
    omega
  rw [hcount]
  have : (l.reverse.dropWhile (· = 0)).reverse
      ++ List.replicate (l.reverse.takeWhile (· = 0)).length 0
      = ((List.replicate (l.reverse.takeWhile (· = 0)).length 0).reverse
        ++ (l.reverse.dropWhile (· = 0))).reverse := by
    rw [List.reverse_append]
    simp
  rw [this, List.reverse_replicate, ← hrep, hsplit, List.reverse_reverse]

theorem padTo_rstrip0 {l : List Nat} {n : Nat} (h : l.length = n) :
    padTo n (rstrip0 l) = l := by
  unfold padTo
  rw [← h]
  exact rstrip0_spec l

theorem rstrip0_replicate_append (t : List Nat) (k : Nat)
    (ht : t.getLast? ≠ some 0) : rstrip0 (t ++ List.replicate k 0) = t := by
  unfold rstrip0
  rw [List.reverse_append, List.reverse_replicate]
  have hdw : ((List.replicate k 0 : List Nat) ++ t.reverse).dropWhile (· = 0)
      = t.reverse.dropWhile (· = 0) := by
    induction k with
    | zero => simp
    | succ k _ => simp [List.replicate_succ, List.dropWhile]
  rw [hdw]
  cases hrev : t.reverse with
  | nil =>
      have : t = [] := by simpa using congrArg List.reverse hrev
      simp [this]
  | cons a as =>
      have ha : a ≠ 0 := by
        intro ha0
        apply ht
        have hh : t.getLast? = (a :: as).head? := by
          rw [← hrev, List.getLast?_eq_head?_reverse]
        rw [hh, ha0]
        rfl
      have : (a :: as).dropWhile (· = 0) = a :: as := by
        rw [List.dropWhile_cons_of_neg]
        simpa using ha
      rw [this, ← hrev, List.reverse_reverse]

/-- Continuation byte of a UTF-8 sequence (`0x80..0xBF`). -/
def utf8Cont (b : Nat) : Bool := 128 ≤ b && b < 192

/-- Strict UTF-8 validity (RFC 3629, as Python's strict `utf-8` codec
enforces when `PaddedString(n, "utf-8")` decodes a field): no overlong
forms, no surrogates, nothing above `U+10FFFF`. -/
def utf8Valid : List Nat → Bool
  | [] => true
  | b :: rest =>
    if b < 128 then utf8Valid rest
    else if 194 ≤ b && b ≤ 223 then
      match rest with
      | c :: rest2 => utf8Cont c && utf8Valid rest2
      | [] => false
    else if b = 224 then
      match rest with
      | c :: d :: rest2 => (160 ≤ c && c < 192) && utf8Cont d && utf8Valid rest2
      | _ => false
    else if (225 ≤ b && b ≤ 236) || b = 238 || b = 239 then
      match rest with
      | c :: d :: rest2 => utf8Cont c && utf8Cont d && utf8Valid rest2
      | _ => false
    else if b = 237 then
      match rest with
      | c :: d :: rest2 => (128 ≤ c && c < 160) && utf8Cont d && utf8Valid rest2
      | _ => false
    else if b = 240 then
      match rest with
      | c :: d :: e :: rest2 =>
          (144 ≤ c && c < 192) && utf8Cont d && utf8Cont e && utf8Valid rest2
      | _ => false
    else if 241 ≤ b && b ≤ 243 then
      match rest with
      | c :: d :: e :: rest2 =>
          utf8Cont c && utf8Cont d && utf8Cont e && utf8Valid rest2
      | _ => false
    else if b = 244 then
      match rest with
      | c :: d :: e :: rest2 =>
          (128 ≤ c && c < 144) && utf8Cont d && utf8Cont e && utf8Valid rest2
      | _ => false
    else false

/-! ## Timestamp adapter (`src/specfp/converters.py`)

`converters.datetime` performs Python true division
`(filetime - MS_ORIGIN) / MS_PRECISION` and hands the result to
`datetime.utcfromtimestamp`, which keeps sub-second precision.  The civil
UTC datetime is modelled by its exact rational number of seconds since the
Unix epoch.  `converters.filetime` goes back through
`calendar.timegm(datetime.utctimetuple())`, which drops the microsecond
field, i.e. takes the floor in whole seconds. -/

/-- `MS_ORIGIN`: the Windows filetime tick count of January 1, 1970. -/
def msOrigin : Nat := 116444736000000000

/-- `MS_PRECISION`: filetime ticks per second (hundreds of nanoseconds). -/
def msPrecision : Nat := 10000000

/-- A decoded civil UTC instant, as `datetime.utcfromtimestamp` represents
it: `sec` whole seconds since the Unix epoch (the floor of the timestamp)
and the `microsecond` field obtained by rounding the fractional second to
microseconds (ties to even, Python's `round`), with the carry into `sec`
when the fraction rounds up to a full second.

`fracTicks` is a ghost field: the exact sub-second tick count of the input.
The Python value does not retain it (only its microsecond rounding), and no
encode path below reads it — `toFiletime` uses `sec` alone, exactly as
`calendar.timegm(utctimetuple())` does.  It is recorded so that
whole-second alignment of the original tick count can be stated as a
predicate on the decoded record. -/
structure UtcTime where
  sec : Int
  microsecond : Nat
  fracTicks : Nat
deriving DecidableEq, Repr

/-- Python's `round` at the scale needed here: round `r / 10` to the
nearest integer, ties to even.  `utcfromtimestamp` computes
`round(frac * 1e6)`, and one microsecond is 10 ticks.  (At an exact tie
the code's outcome additionally depends on float rounding of `frac * 1e6`;
no theorem below depends on a tie case.) -/
def roundTiesEven10 (r : Nat) : Nat :=
  if r % 10 < 5 then r / 10
  else if 5 < r % 10 then r / 10 + 1
  else if (r / 10) % 2 = 0 then r / 10 else r / 10 + 1

/-- The first second of year 10000: `datetime` supports years 1–9999, so
`utcfromtimestamp` raises from this point on. -/
def maxSec : ℤ := 253402300800

/-- The tick offset `filetime - MS_ORIGIN`. -/
def tickOffset (filetime : Nat) : ℤ := (filetime : ℤ) - (msOrigin : ℤ)

/-- Exact sub-second tick count of the instant (the fractional part of the
true quotient, in ticks). -/
def fracOf (filetime : Nat) : ℕ :=
  ((tickOffset filetime) % (msPrecision : ℤ)).toNat

/-- The microsecond rounding `round(frac * 1e6)` before the carry. -/
def usRound (filetime : Nat) : ℕ := roundTiesEven10 (fracOf filetime)

/-- Whole seconds after the microsecond carry. -/
def secOf (filetime : Nat) : ℤ :=
  if usRound filetime = 1000000 then
    tickOffset filetime / (msPrecision : ℤ) + 1
  else tickOffset filetime / (msPrecision : ℤ)

/-- The `microsecond` field after the carry. -/
def usOf (filetime : Nat) : ℕ :=
  if usRound filetime = 1000000 then 0 else usRound filetime

/-- `converters.datetime`: true division of the tick offset (the fraction
is kept, rounded to the microsecond field), `none` for the `ValueError`
`utcfromtimestamp` raises when the resulting year exceeds 9999.  The
arithmetic here is exact; the code computes the timestamp as a float, which
agrees with the exact value whenever the true quotient is representable as
a double — in particular on every whole-second- or half-second-aligned
tick count in range, the only inputs the theorems below evaluate at.
(Float rounding can perturb the microsecond field of other large unaligned
inputs, and can make inputs within a fraction of a second of `maxSec`
raise as well; no theorem below asserts anything about those inputs.) -/
def toDatetime (filetime : Nat) : Option UtcTime :=
  if secOf filetime < maxSec then
    some ⟨secOf filetime, usOf filetime, fracOf filetime⟩
  else none

/-- `converters.filetime`: `timegm(utctimetuple())` reads only the whole
seconds (the microsecond field is dropped), then rescales to ticks past the
origin. -/
def toFiletime (t : UtcTime) : ℤ := t.sec * (msPrecision : ℤ) + (msOrigin : ℤ)

/-! ## Parser plumbing

A parser reads a prefix of the byte list and produces the decoded value with
the unread suffix, or one of the error classes `construct` raises. -/

/-- Error classes surfaced by the Python code. -/
inductive WErr where
  /-- `construct.StreamError`: fewer bytes remain than a field requires. -/
  | truncated
  /-- `construct.ConstError`: a `Const` magic did not match the stream. -/
  | constMismatch
  /-- `construct StringError`: string field failed `ascii`/`utf-8` decoding. -/
  | badString
  /-- `construct RangeError`: an array count evaluated negative. -/
  | rangeErr
  /-- Python `KeyError`: a codec read `this._.size` with no `size` supplied. -/
  | ctxMissing
  /-- Python `TypeError`: sizing context read off a `None` metadata slot. -/
  | ctxNone
  /-- Python `AttributeError`: sizing context read off a non-metadata record. -/
  | badCtx
  /-- Python `ValueError`: `utcfromtimestamp` received a timestamp past
  year 9999 while decoding a metadata timestamp field. -/
  | valueErr
  /-- Recursion fuel ran out (artificial; never happens with the fuel
  `wdfDecode` supplies, see `go_no_fuelOut`). -/
  | fuelOut
deriving DecidableEq, Repr

deriving instance DecidableEq for Except

/-- A parser over a byte list. -/
def Pr (α : Type) : Type := List Nat → Except WErr (α × List Nat)

/-- Sequencing of parsers (explicit, so proofs can invert it directly). -/
def pbind {α β : Type} (x : Pr α) (f : α → Pr β) : Pr β := fun s =>
  match x s with
  | .error e => .error e
  | .ok (a, s1) => f a s1

/-- Parser returning a value without consuming input. -/
def pret {α : Type} (a : α) : Pr α := fun s => .ok (a, s)

theorem pbind_ok {α β : Type} {x : Pr α} {f : α → Pr β} {s s2 : List Nat}
    {b : β} (h : pbind x f s = .ok (b, s2)) :
    ∃ a s1, x s = .ok (a, s1) ∧ f a s1 = .ok (b, s2) := by
  unfold pbind at h
  cases hx : x s with
  | error e => rw [hx] at h; cases h
  | ok p => rw [hx] at h; exact ⟨p.1, p.2, rfl, h⟩

theorem pbind_err {α β : Type} {x : Pr α} {f : α → Pr β} {s : List Nat}
    {e : WErr} (h : x s = .error e) : pbind x f s = .error e := by
  unfold pbind; rw [h]

theorem pret_ok {α : Type} {a b : α} {s s2 : List Nat}
    (h : pret a s = .ok (b, s2)) : b = a ∧ s2 = s := by
  unfold pret at h
  injection h with h1
  injection h1 with h2 h3
  exact ⟨h2.symm, h3.symm⟩

/-- Read exactly `w` bytes (`construct` `stream_read`); `StreamError` if the
stream is shorter. -/
def pChunk (w : Nat) : Pr (List Nat) := fun s =>
  if w ≤ s.length then .ok (s.take w, s.drop w) else .error .truncated

/-- Unsigned little-endian integer field of width `w`
(`Int16ul`/`Int32ul`/`Int64ul`). -/
def pU (w : Nat) : Pr Nat :=
  pbind (pChunk w) fun a => pret (leVal a)

/-- `construct.Const(magic)`: read `magic.length` bytes and compare. -/
def pConst (magic : List Nat) : Pr (List Nat) := fun s =>
  match pChunk magic.length s with
  | .error e => .error e
  | .ok (a, s1) => if a = magic then .ok (a, s1) else .error .constMismatch

/-- `construct.PaddedString(w, "ascii")`: fixed `w` bytes, trailing NULs
stripped, then strict ASCII decoding; the decoded string is modelled by its
byte content. -/
def pStrA (w : Nat) : Pr (List Nat) := fun s =>
  match pChunk w s with
  | .error e => .error e
  | .ok (a, s1) =>
      if (rstrip0 a).all (· < 128) then .ok (rstrip0 a, s1)
      else .error .badString

/-- `construct.PaddedString(w, "utf-8")`: as `pStrA` but strict UTF-8. -/
def pStrU (w : Nat) : Pr (List Nat) := fun s =>
  match pChunk w s with
  | .error e => .error e
  | .ok (a, s1) =>
      if utf8Valid (rstrip0 a) then .ok (rstrip0 a, s1)
      else .error .badString

/-- Array of `c` unsigned little-endian integers of width `w`
(`Int32ul[c]`, `Int64ul[c]`). -/
def pArrU (w : Nat) : Nat → Pr (List Nat)
  | 0 => pret []
  | c + 1 =>
      pbind (pU w) fun v =>
      pbind (pArrU w c) fun vs =>
      pret (v :: vs)

/-- Array of `c` fixed-width cells (`Float32l[c]` is `w = 4`).  A parsed
cell is represented by the bit pattern read from the stream; the Python
float it denotes determines (and is determined by, for non-NaN patterns)
the bytes `struct.pack` writes back, which is where the conversion's only
information loss — quieting a signaling NaN — is realised (`f32Repack` in
the build direction below).  Two distinct signaling patterns denote the
same parsed float; no theorem below distinguishes them. -/
def pCells (w : Nat) : Nat → Pr (List (List Nat))
  | 0 => pret []
  | c + 1 =>
      pbind (pChunk w) fun a =>
      pbind (pCells w c) fun as =>
      pret (a :: as)

/-- A 4-byte little-endian f32 cell holding a signaling NaN: exponent bits
all ones (`(b3 % 128) * 2 + b2 / 128 = 255`), quiet bit (mantissa MSB,
bit 22, i.e. bit 6 of `b2`) clear, mantissa non-zero. -/
def isSNaN32 (cell : List Nat) : Bool :=
  match cell with
  | [b0, b1, b2, b3] =>
      b3 % 128 == 127 && 128 ≤ b2 && (b2 / 64) % 2 == 0
        && (b2 % 64 != 0 || b1 != 0 || b0 != 0)
  | _ => false

/-- The bit pattern `struct.pack("<f", v)` writes for the float
`v = struct.unpack("<f", cell)[0]`: the C `float → double → float` round
trip `construct.Float32l` performs is the identity on every non-NaN
pattern (zeros, subnormals, infinities included) and on every quiet NaN
(`f32 → f64` zero-extends the payload and `f64 → f32` truncates those
zeros back), but a signaling NaN is quieted — the mantissa MSB is set. -/
def f32Repack (cell : List Nat) : List Nat :=
  match cell with
  | [b0, b1, b2, b3] =>
      if isSNaN32 [b0, b1, b2, b3] then [b0, b1, b2 + 64, b3]
      else [b0, b1, b2, b3]
  | c => c

theorem f32Repack_clean {c : List Nat} (h : isSNaN32 c = false) :
    f32Repack c = c := by
  unfold f32Repack
  split
  · rename_i heq
    rw [h]
    simp
  · rfl

theorem f32Repack_map_clean {l : List (List Nat)}
    (h : ∀ c ∈ l, isSNaN32 c = false) : l.map f32Repack = l := by
  induction l with
  | nil => rfl
  | cons a l ih =>
      rw [List.map_cons, f32Repack_clean (h a (by simp)),
        ih (fun c hc => h c (by simp [hc]))]

/-- `FiletimeAdapter` decode path: `Int64ul` then `converters.datetime`;
the adapter's `ValueError` for an out-of-range timestamp propagates out of
the parse (it is not a `ConstructError`). -/
def pFiletime : Pr UtcTime :=
  pbind (pU 8) fun v => fun s =>
    match toDatetime v with
    | some u => .ok (u, s)
    | none => .error .valueErr

/-- `construct.Array` evaluates its count before reading; a negative count
raises `RangeError`. -/
def guardCount (n : ℤ) : Pr Nat := fun s =>
  if n < 0 then .error .rangeErr else .ok (n.toNat, s)

/-- Evaluation of `this._.size`: `KeyError` when the externally supplied
sizing context is absent. -/
def needCtx (ctx : Option Nat) : Pr Nat := fun s =>
  match ctx with
  | none => .error .ctxMissing
  | some c => .ok (c, s)

/-! ## Builders (the `build` direction of each field codec) -/

/-- Build a fixed-width string field: encode (identity on the byte content)
then NUL-pad to the field width. -/
def bStr (w : Nat) (t : List Nat) : List Nat := padTo w t

/-- Build an array of unsigned little-endian integers. -/
def bArrU (w : Nat) (vs : List Nat) : List Nat := (vs.map (leBytes w)).flatten

/-- `FiletimeAdapter` encode path: `converters.filetime` then `Int64ul`. -/
def bFiletime (t : UtcTime) : List Nat := leBytes 8 (toFiletime t).toNat

/-! ## Primitive round-trip lemmas -/

theorem pChunk_spec {w : Nat} {s s1 a : List Nat}
    (h : pChunk w s = .ok (a, s1)) :
    a ++ s1 = s ∧ a.length = w ∧ s1.length + w = s.length := by
  unfold pChunk at h
  split at h
  · injection h with h1
    injection h1 with h2 h3
    subst h2; subst h3
    refine ⟨List.take_append_drop _ _, ?_, ?_⟩
    · rw [List.length_take]; omega
    · rw [List.length_drop]; omega
  · cases h

theorem pU_spec {w : Nat} {s s1 : List Nat} {v : Nat}
    (h : pU w s = .ok (v, s1)) (hs : okBytes s) :
    leBytes w v ++ s1 = s ∧ okBytes s1 ∧ s1.length + w = s.length := by
  obtain ⟨a, s2, h1, h2⟩ := pbind_ok h
  obtain ⟨hv, hs2⟩ := pret_ok h2
  subst hv; subst hs2
  obtain ⟨happ, hlen, hlen2⟩ := pChunk_spec h1
  rw [← happ] at hs
  obtain ⟨ha, hs1⟩ := okBytes_append hs
  have : leBytes w (leVal a) = a := by rw [← hlen]; exact leBytes_leVal ha
  rw [this]
  exact ⟨happ, hs1, hlen2⟩

theorem pConst_spec {m s s1 a : List Nat} (h : pConst m s = .ok (a, s1)) :
    a = m ∧ m ++ s1 = s ∧ s1.length + m.length = s.length := by
  unfold pConst at h
  split at h
  · cases h
  · rename_i a1 r1 hc
    obtain ⟨happ, hlen, hlen2⟩ := pChunk_spec hc
    split at h
    · rename_i heq
      injection h with h1
      injection h1 with h2 h3
      subst h2; subst h3
      subst heq
      exact ⟨rfl, happ, hlen2⟩
    · cases h

theorem pStrA_spec {w : Nat} {s s1 t : List Nat}
    (h : pStrA w s = .ok (t, s1)) (hs : okBytes s) :
    bStr w t ++ s1 = s ∧ okBytes s1 ∧ s1.length + w = s.length := by
  unfold pStrA at h
  split at h
  · cases h
  · rename_i a1 r1 hc
    obtain ⟨happ, hlen, hlen2⟩ := pChunk_spec hc
    split at h
    · injection h with h1
      injection h1 with h2 h3
      subst h2; subst h3
      rw [← happ] at hs
      obtain ⟨ha, hs1⟩ := okBytes_append hs
      unfold bStr
      rw [padTo_rstrip0 hlen]
      exact ⟨happ, hs1, hlen2⟩
    · cases h

theorem pStrU_spec {w : Nat} {s s1 t : List Nat}
    (h : pStrU w s = .ok (t, s1)) (hs : okBytes s) :
    bStr w t ++ s1 = s ∧ okBytes s1 ∧ s1.length + w = s.length := by
  unfold pStrU at h
  split at h
  · cases h
  · rename_i a1 r1 hc
    obtain ⟨happ, hlen, hlen2⟩ := pChunk_spec hc
    split at h
    · injection h with h1
      injection h1 with h2 h3
      subst h2; subst h3
      rw [← happ] at hs
      obtain ⟨ha, hs1⟩ := okBytes_append hs
      unfold bStr
      rw [padTo_rstrip0 hlen]
      exact ⟨happ, hs1, hlen2⟩
    · cases h

theorem pArrU_spec {w c : Nat} {s s1 : List Nat} {vs : List Nat}
    (h : pArrU w c s = .ok (vs, s1)) (hs : okBytes s) :
    bArrU w vs ++ s1 = s ∧ okBytes s1 ∧ vs.length = c
      ∧ s1.length + w * c = s.length := by
  induction c generalizing s vs with
  | zero =>
      obtain ⟨hv, hs2⟩ := pret_ok h
      subst hv; subst hs2
      exact ⟨rfl, hs, rfl, by omega⟩
  | succ c ih =>
      obtain ⟨v, s2, h1, h2⟩ := pbind_ok h
      obtain ⟨rest, s3, h3, h4⟩ := pbind_ok h2
      obtain ⟨hv, hs3⟩ := pret_ok h4
      subst hv; subst hs3
      obtain ⟨happ1, hok2, hlen1⟩ := pU_spec h1 hs
      obtain ⟨happ2, hok3, hlenr, hlen2⟩ := ih h3 hok2
      refine ⟨?_, hok3, by simp [hlenr], by rw [Nat.mul_succ]; omega⟩
      rw [← happ1, ← happ2]
      simp [bArrU, List.flatten]

theorem pCells_spec {w c : Nat} {s s1 : List Nat} {cs : List (List Nat)}
    (h : pCells w c s = .ok (cs, s1)) :
    cs.flatten ++ s1 = s ∧ cs.length = c ∧ (∀ a ∈ cs, a.length = w)
      ∧ s1.length + w * c = s.length := by
  induction c generalizing s cs with
  | zero =>
      obtain ⟨hv, hs2⟩ := pret_ok h
      subst hv; subst hs2
      exact ⟨rfl, rfl, (by intro a ha; cases ha), by omega⟩
  | succ c ih =>
      obtain ⟨a, s2, h1, h2⟩ := pbind_ok h
      obtain ⟨rest, s3, h3, h4⟩ := pbind_ok h2
      obtain ⟨hv, hs3⟩ := pret_ok h4
      subst hv; subst hs3
      obtain ⟨happ1, hlena, hlen1⟩ := pChunk_spec h1
      obtain ⟨happ2, hlenr, hmem, hlen2⟩ := ih h3
      refine ⟨?_, by simp [hlenr], ?_, by rw [Nat.mul_succ]; omega⟩
      · rw [← happ1, ← happ2]
        simp [List.flatten]
      · intro x hx
        cases hx with
        | head => exact hlena
        | tail _ hx2 => exact hmem x hx2

theorem pCells_okBytes {w c : Nat} {s s1 : List Nat} {cs : List (List Nat)}
    (h : pCells w c s = .ok (cs, s1)) (hs : okBytes s) : okBytes s1 := by
  obtain ⟨happ, _, _, _⟩ := pCells_spec h
  rw [← happ] at hs
  exact (okBytes_append hs).2

theorem pFiletime_spec {s s1 : List Nat} {q : UtcTime}
    (h : pFiletime s = .ok (q, s1)) (hs : okBytes s) :
    ∃ v : Nat, toDatetime v = some q ∧ leBytes 8 v ++ s1 = s ∧ okBytes s1
      ∧ s1.length + 8 = s.length := by
  obtain ⟨v, s2, h1, h2⟩ := pbind_ok h
  cases hd : toDatetime v with
  | some u =>
      rw [hd] at h2
      simp only at h2
      injection h2 with h3
      injection h3 with hq hs1
      subst hq; subst hs1
      obtain ⟨happ, hok, hlen⟩ := pU_spec h1 hs
      exact ⟨v, hd, happ, hok, hlen⟩
  | none =>
      rw [hd] at h2
      simp at h2

/-- A whole-second-aligned tick count (ghost fraction zero) decodes without
a microsecond carry, and its floor second recovers it exactly. -/
theorem toFiletime_toDatetime {v : Nat} {u : UtcTime}
    (hsome : toDatetime v = some u) (hfr : u.fracTicks = 0) :
    toFiletime u = (v : ℤ) := by
  unfold toDatetime at hsome
  by_cases hlt : secOf v < maxSec
  · rw [if_pos hlt] at hsome
    injection hsome with h3
    subst h3
    have hfr2 : fracOf v = 0 := hfr
    have hus : usRound v = 0 := by
      unfold usRound
      rw [hfr2]
      decide
    have hsec : secOf v = tickOffset v / (msPrecision : ℤ) := by
      unfold secOf
      rw [hus]
      simp
    have hmod : tickOffset v % (msPrecision : ℤ) = 0 := by
      have hnn : 0 ≤ tickOffset v % (msPrecision : ℤ) :=
        Int.emod_nonneg _ (by norm_num [msPrecision])
      unfold fracOf at hfr2
      omega
    have hid := Int.ediv_add_emod (tickOffset v) (msPrecision : ℤ)
    unfold toFiletime
    simp only
    rw [hsec]
    unfold tickOffset msOrigin msPrecision at *
    omega
  · rw [if_neg hlt] at hsome
    simp at hsome

theorem bFiletime_restore {v : Nat} {u : UtcTime}
    (hsome : toDatetime v = some u) (hfr : u.fracTicks = 0) :
    bFiletime u = leBytes 8 v := by
  unfold bFiletime
  rw [toFiletime_toDatetime hsome hfr]
  simp


/-! ## Block headers (`Header` in `wdf.py`) -/

/-- A decoded block header: 4-byte magic (plus explicit padding bytes when the
magic is shorter), `uid : Int32ul`, `size : Int64ul` (total block bytes,
header included). -/
structure Hdr where
  magic : List Nat
  padding : List Nat
  uid : Nat
  size : Nat
deriving DecidableEq, Repr

/-- `Header(None)`: free magic via `PaddedString(4, "ascii")`, then
`Byte[4 - 4] = Byte[0]`, `uid`, `size`. -/
def pHeaderAny : Pr Hdr :=
  pbind (pStrA 4) fun m =>
  pbind (pChunk 0) fun pad =>
  pbind (pU 4) fun uid =>
  pbind (pU 8) fun size =>
  pret ⟨m, pad, uid, size⟩

/-- `Header(magic)`: `Const(magic)`, then `Byte[4 - magic.length]` padding,
`uid`, `size`. -/
def pHeaderConst (magic : List Nat) : Pr Hdr :=
  pbind (pConst magic) fun m =>
  pbind (pChunk (4 - magic.length)) fun pad =>
  pbind (pU 4) fun uid =>
  pbind (pU 8) fun size =>
  pret ⟨m, pad, uid, size⟩

/-- Build a free-magic header (`PaddedString` build NUL-pads the magic). -/
def bHeaderAny (h : Hdr) : List Nat :=
  bStr 4 h.magic ++ h.padding ++ leBytes 4 h.uid ++ leBytes 8 h.size

/-- Build a const-magic header (`Const` build writes its fixed bytes; for a
parsed record these equal `h.magic`). -/
def bHeaderConst (magic : List Nat) (h : Hdr) : List Nat :=
  magic ++ h.padding ++ leBytes 4 h.uid ++ leBytes 8 h.size

theorem pHeaderAny_spec {s s1 : List Nat} {h : Hdr}
    (hp : pHeaderAny s = .ok (h, s1)) (hs : okBytes s) :
    bHeaderAny h ++ s1 = s ∧ okBytes s1 ∧ s1.length + 16 = s.length := by
  obtain ⟨m, t1, h1, hr⟩ := pbind_ok hp
  obtain ⟨pad, t2, h2, hr⟩ := pbind_ok hr
  obtain ⟨uid, t3, h3, hr⟩ := pbind_ok hr
  obtain ⟨size, t4, h4, hr⟩ := pbind_ok hr
  obtain ⟨hv, hs4⟩ := pret_ok hr
  subst hv; subst hs4
  obtain ⟨e1, ok1, l1⟩ := pStrA_spec h1 hs
  obtain ⟨e2, l2a, l2⟩ := pChunk_spec h2
  have ok2 : okBytes t2 := by
    rw [← e2] at ok1; exact (okBytes_append ok1).2
  obtain ⟨e3, ok3, l3⟩ := pU_spec h3 ok2
  obtain ⟨e4, ok4, l4⟩ := pU_spec h4 ok3
  refine ⟨?_, ok4, by omega⟩
  rw [← e1, ← e2, ← e3, ← e4]
  simp [bHeaderAny, List.append_assoc]

theorem pHeaderConst_spec {magic s s1 : List Nat} {h : Hdr}
    (hp : pHeaderConst magic s = .ok (h, s1)) (hs : okBytes s)
    (hm : magic.length ≤ 4) :
    bHeaderConst magic h ++ s1 = s ∧ okBytes s1 ∧ s1.length + 16 = s.length
      ∧ h.magic = magic := by
  obtain ⟨m, t1, h1, hr⟩ := pbind_ok hp
  obtain ⟨pad, t2, h2, hr⟩ := pbind_ok hr
  obtain ⟨uid, t3, h3, hr⟩ := pbind_ok hr
  obtain ⟨size, t4, h4, hr⟩ := pbind_ok hr
  obtain ⟨hv, hs4⟩ := pret_ok hr
  subst hv; subst hs4
  obtain ⟨hmm, e1, l1⟩ := pConst_spec h1
  have ok1 : okBytes t1 := by
    rw [← e1] at hs; exact (okBytes_append hs).2
  obtain ⟨e2, l2a, l2⟩ := pChunk_spec h2
  have ok2 : okBytes t2 := by
    rw [← e2] at ok1; exact (okBytes_append ok1).2
  obtain ⟨e3, ok3, l3⟩ := pU_spec h3 ok2
  obtain ⟨e4, ok4, l4⟩ := pU_spec h4 ok3
  refine ⟨?_, ok4, by omega, hmm⟩
  rw [← e1, ← e2, ← e3, ← e4]
  simp [bHeaderConst, List.append_assoc]

/-! ## The metadata record (`Block.WDF1` in `wdf.py`) -/

/-- The fixed-layout WDF1 metadata record, field for field as the
`construct.Struct` in `Block.WDF1` declares it.  String fields hold their
decoded byte content; `time_start`/`time_end` hold the adapter-decoded UTC
instant in rational epoch seconds; `wave_number` holds the raw `Float32l`
bit pattern. -/
structure WDF1Rec where
  header : Hdr
  signature : Nat
  version : Nat
  size : Nat
  uuid : List Nat
  unused0 : Nat
  unused1 : Nat
  tracks : Nat
  points : Nat
  capacity : Nat
  count : Nat
  accumulation : Nat
  YLST : Nat
  XLST : Nat
  origin_length : Nat
  application : List Nat
  major_version : Nat
  minor_version : Nat
  patch_version : Nat
  build_version : Nat
  scan_type : Nat
  measurement_type : Nat
  time_start : UtcTime
  time_end : UtcTime
  unit : Nat
  wave_number : List Nat
  spare : List Nat
  username : List Nat
  title : List Nat
  padded : List Nat
  third_party : List Nat
  internal_use : List Nat
deriving DecidableEq, Repr

/-- A decoded block record, one constructor per payload codec shape. -/
inductive Rec where
  /-- `Default(...)`: header plus raw byte payload of `size - 16` bytes. -/
  | generic (header : Hdr) (payload : List Nat)
  /-- `AXIS(...)`: header, axis type, unit, `Float32l[size]` domain,
  trailing unused bytes. -/
  | axis (header : Hdr) (type : Nat) (unit : Nat) (domain : List (List Nat))
      (unused : List Nat)
  /-- `Block.DATA`: header, `Float32l[size]` payload, trailing unused. -/
  | data (header : Hdr) (payload : List (List Nat)) (unused : List Nat)
  /-- `Block.WDF1`: the metadata record. -/
  | meta (m : WDF1Rec)
deriving DecidableEq, Repr

/-! ## Tags (ASCII bytes of the `Block` enum names) -/

def tagWDF1 : List Nat := [87, 68, 70, 49]
def tagDATA : List Nat := [68, 65, 84, 65]
def tagYLST : List Nat := [89, 76, 83, 84]
def tagXLST : List Nat := [88, 76, 83, 84]
def tagTEXT : List Nat := [84, 69, 88, 84]
def tagORGN : List Nat := [79, 82, 71, 78]

/-- The magics of the `Default(...)` catalog entries, in `Block` enum order
(`MAP`, `CAP`, `AUX` are three bytes long, exactly as in the source). -/
def genericTags : List (List Nat) :=
  [tagORGN, tagTEXT,
   [87, 88, 68, 65], [87, 88, 68, 66], [87, 88, 68, 77], [87, 88, 67, 83],
   [87, 88, 73, 83], [87, 77, 65, 80], [87, 72, 84, 76], [78, 65, 73, 76],
   [77, 65, 80], [67, 70, 65, 82], [68, 67, 76, 83], [80, 67, 65, 82],
   [77, 67, 82, 69], [90, 76, 68, 67], [82, 67, 65, 76], [67, 65, 80],
   [87, 65, 82, 80], [87, 65, 82, 65], [87, 76, 66, 76], [87, 67, 72, 75],
   [82, 88, 67, 68], [82, 88, 67, 70], [88, 67, 65, 76], [83, 82, 67, 72],
   [84, 69, 77, 80], [85, 78, 67, 86], [65, 82, 80, 82], [69, 76, 69, 67],
   [66, 75, 88, 76], [65, 85, 88], [67, 72, 76, 71], [83, 85, 82, 70],
   [80, 83, 69, 84]]

/-- A tag registered as a state of the `transitions.Machine` (the `Block`
enum member names). -/
def knownTag (t : List Nat) : Bool :=
  t = tagWDF1 || t = tagDATA || t = tagYLST || t = tagXLST
    || genericTags.contains t

/-! ## Payload codecs -/

/-- `Default(magic, Byte)`: header then `Byte[(size - 16) // 1]`; a negative
count raises `RangeError` in `construct.Array`. -/
def parseDefault (magic : Option (List Nat)) : Pr Rec :=
  pbind (match magic with
         | none => pHeaderAny
         | some mg => pHeaderConst mg) fun header =>
  pbind (guardCount ((header.size : ℤ) - 16)) fun cnt =>
  pbind (pChunk cnt) fun payload =>
  pret (.generic header payload)

/-- `AXIS(magic)`: header, `type`, `unit`, `Float32l[this._.size]` domain,
then `Byte[size - 16 - (2 + this._.size) * 4]` unused bytes. -/
def parseAXIS (magic : List Nat) (ctx : Option Nat) : Pr Rec :=
  pbind (pHeaderConst magic) fun header =>
  pbind (pU 4) fun ty =>
  pbind (pU 4) fun unit =>
  pbind (needCtx ctx) fun c =>
  pbind (pCells 4 c) fun domain =>
  pbind (guardCount ((header.size : ℤ) - 16 - (2 + (c : ℤ)) * 4)) fun ucnt =>
  pbind (pChunk ucnt) fun unused =>
  pret (.axis header ty unit domain unused)

/-- `Block.DATA`: header, `Float32l[this._.size]` payload, then
`Byte[size - 16 - this._.size * 4]` unused bytes. -/
def parseDATA (ctx : Option Nat) : Pr Rec :=
  pbind (pHeaderConst tagDATA) fun header =>
  pbind (needCtx ctx) fun c =>
  pbind (pCells 4 c) fun payload =>
  pbind (guardCount ((header.size : ℤ) - 16 - (c : ℤ) * 4)) fun ucnt =>
  pbind (pChunk ucnt) fun unused =>
  pret (.data header payload unused)

/-- `Block.WDF1`: the fixed-layout metadata codec, field for field. -/
def parseWDF1 : Pr Rec :=
  pbind (pHeaderConst tagWDF1) fun header =>
  pbind (pU 4) fun signature =>
  pbind (pU 4) fun version =>
  pbind (pU 4) fun size =>
  pbind (pArrU 4 4) fun uuid =>
  pbind (pU 8) fun unused0 =>
  pbind (pU 4) fun unused1 =>
  pbind (pU 4) fun tracks =>
  pbind (pU 4) fun points =>
  pbind (pU 8) fun capacity =>
  pbind (pU 8) fun count =>
  pbind (pU 4) fun accumulation =>
  pbind (pU 4) fun ylst =>
  pbind (pU 4) fun xlst =>
  pbind (pU 4) fun origin_length =>
  pbind (pStrA 24) fun application =>
  pbind (pU 2) fun major_version =>
  pbind (pU 2) fun minor_version =>
  pbind (pU 2) fun patch_version =>
  pbind (pU 2) fun build_version =>
  pbind (pU 4) fun scan_type =>
  pbind (pU 4) fun measurement_type =>
  pbind pFiletime fun time_start =>
  pbind pFiletime fun time_end =>
  pbind (pU 4) fun unit =>
  pbind (pChunk 4) fun wave_number =>
  pbind (pArrU 8 6) fun spare =>
  pbind (pStrU 32) fun username =>
  pbind (pStrU 160) fun title =>
  pbind (pArrU 8 6) fun padded =>
  pbind (pArrU 8 4) fun third_party =>
  pbind (pArrU 8 4) fun internal_use =>
  pret (.meta ⟨header, signature, version, size, uuid, unused0, unused1,
    tracks, points, capacity, count, accumulation, ylst, xlst, origin_length,
    application, major_version, minor_version, patch_version, build_version,
    scan_type, measurement_type, time_start, time_end, unit, wave_number,
    spare, username, title, padded, third_party, internal_use⟩)

/-! ## Payload builders (the `build` direction) -/

def bDefault (magic : Option (List Nat)) (header : Hdr)
    (payload : List Nat) : List Nat :=
  (match magic with
   | none => bHeaderAny header
   | some mg => bHeaderConst mg header) ++ payload

def bAXIS (magic : List Nat) (header : Hdr) (ty unit : Nat)
    (domain : List (List Nat)) (unused : List Nat) : List Nat :=
  bHeaderConst magic header ++ leBytes 4 ty ++ leBytes 4 unit
    ++ (domain.map f32Repack).flatten ++ unused

def bDATA (header : Hdr) (payload : List (List Nat))
    (unused : List Nat) : List Nat :=
  bHeaderConst tagDATA header ++ (payload.map f32Repack).flatten ++ unused

def bWDF1 (m : WDF1Rec) : List Nat :=
  bHeaderConst tagWDF1 m.header ++ leBytes 4 m.signature
    ++ leBytes 4 m.version ++ leBytes 4 m.size ++ bArrU 4 m.uuid
    ++ leBytes 8 m.unused0 ++ leBytes 4 m.unused1 ++ leBytes 4 m.tracks
    ++ leBytes 4 m.points ++ leBytes 8 m.capacity ++ leBytes 8 m.count
    ++ leBytes 4 m.accumulation ++ leBytes 4 m.YLST ++ leBytes 4 m.XLST
    ++ leBytes 4 m.origin_length ++ bStr 24 m.application
    ++ leBytes 2 m.major_version ++ leBytes 2 m.minor_version
    ++ leBytes 2 m.patch_version ++ leBytes 2 m.build_version
    ++ leBytes 4 m.scan_type ++ leBytes 4 m.measurement_type
    ++ bFiletime m.time_start ++ bFiletime m.time_end ++ leBytes 4 m.unit
    ++ f32Repack m.wave_number ++ bArrU 8 m.spare ++ bStr 32 m.username
    ++ bStr 160 m.title ++ bArrU 8 m.padded ++ bArrU 8 m.third_party
    ++ bArrU 8 m.internal_use

/-! ## Catalog dispatch -/

/-- Select the parse codec for tag `t` (the `Block` enum lookup; the final
arm is the free-magic `Default()` codec, which is what the repository's
tests apply to blocks whose tag is not in the catalog). -/
def codecParse (t : List Nat) (ctx : Option Nat) : Pr Rec :=
  if t = tagWDF1 then parseWDF1
  else if t = tagDATA then parseDATA ctx
  else if t = tagYLST then parseAXIS tagYLST ctx
  else if t = tagXLST then parseAXIS tagXLST ctx
  else if genericTags.contains t then parseDefault (some t)
  else parseDefault none

/-- Select the build codec for tag `t`.  For records produced by
`codecParse` the stored `header.magic` equals the codec's `Const` magic, so
the build writes exactly the bytes `construct`'s `build` would. -/
def codecBuild (t : List Nat) : Rec → List Nat
  | .meta m => bWDF1 m
  | .data h pay unus => bDATA h pay unus
  | .axis h ty un dom unus => bAXIS h.magic h ty un dom unus
  | .generic h pay =>
      if genericTags.contains t then bDefault (some h.magic) h pay
      else bDefault none h pay

/-- Whole-second alignment of the two metadata timestamps (trivial for the
other record shapes).  This is the condition under which the
`FiletimeAdapter` encode path restores the original tick bytes. -/
def tsAligned : Rec → Prop
  | .meta m => m.time_start.fracTicks = 0 ∧ m.time_end.fracTicks = 0
  | _ => True

/-- No stored f32 cell is a signaling NaN (trivial for generic records,
whose payload is raw bytes).  This is the condition under which
`struct.pack` writes back exactly the cell bytes that were read: a
signaling-NaN cell is otherwise re-encoded quieted. -/
def cellsClean : Rec → Prop
  | .axis _ _ _ dom _ => ∀ c ∈ dom, isSNaN32 c = false
  | .data _ pay _ => ∀ c ∈ pay, isSNaN32 c = false
  | .meta m => isSNaN32 m.wave_number = false
  | .generic _ _ => True


/-! ## Codec round-trip lemmas -/

theorem guardCount_spec {n : ℤ} {s s1 : List Nat} {v : Nat}
    (h : guardCount n s = .ok (v, s1)) : s1 = s ∧ 0 ≤ n ∧ (v : ℤ) = n := by
  unfold guardCount at h
  split at h
  · cases h
  · rename_i hn
    injection h with h1
    injection h1 with h2 h3
    subst h2; subst h3
    refine ⟨rfl, by omega, ?_⟩
    rw [Int.toNat_of_nonneg (by omega)]

theorem needCtx_spec {ctx : Option Nat} {s s1 : List Nat} {c : Nat}
    (h : needCtx ctx s = .ok (c, s1)) : s1 = s ∧ ctx = some c := by
  unfold needCtx at h
  cases ctx with
  | none => cases h
  | some c0 =>
      injection h with h1
      injection h1 with h2 h3
      subst h2; subst h3
      exact ⟨rfl, rfl⟩

theorem parseDefaultC_spec {mg s s1 : List Nat} {rec : Rec}
    (h : parseDefault (some mg) s = .ok (rec, s1)) (hs : okBytes s)
    (hm : mg.length ≤ 4) :
    ∃ hd pay, rec = .generic hd pay ∧ hd.magic = mg
      ∧ bDefault (some mg) hd pay ++ s1 = s ∧ okBytes s1
      ∧ 16 + pay.length = hd.size ∧ s1.length + 16 ≤ s.length := by
  obtain ⟨hd, t1, h1, hr⟩ := pbind_ok h
  obtain ⟨cnt, t2, h2, hr⟩ := pbind_ok hr
  obtain ⟨pay, t3, h3, hr⟩ := pbind_ok hr
  obtain ⟨hv, hs3⟩ := pret_ok hr
  subst hv; subst hs3
  obtain ⟨e1, ok1, l1, hmg⟩ := pHeaderConst_spec h1 hs hm
  obtain ⟨ht2, hcn, hcv⟩ := guardCount_spec h2
  subst ht2
  obtain ⟨e3, l3a, l3⟩ := pChunk_spec h3
  have ok3 : okBytes s1 := by
    rw [← e3] at ok1; exact (okBytes_append ok1).2
  refine ⟨hd, pay, rfl, hmg, ?_, ok3, by omega, by omega⟩
  rw [← e1, ← e3]
  simp [bDefault, List.append_assoc]

theorem parseDefaultA_spec {s s1 : List Nat} {rec : Rec}
    (h : parseDefault none s = .ok (rec, s1)) (hs : okBytes s) :
    ∃ hd pay, rec = .generic hd pay
      ∧ bDefault none hd pay ++ s1 = s ∧ okBytes s1
      ∧ 16 + pay.length = hd.size ∧ s1.length + 16 ≤ s.length := by
  obtain ⟨hd, t1, h1, hr⟩ := pbind_ok h
  obtain ⟨cnt, t2, h2, hr⟩ := pbind_ok hr
  obtain ⟨pay, t3, h3, hr⟩ := pbind_ok hr
  obtain ⟨hv, hs3⟩ := pret_ok hr
  subst hv; subst hs3
  obtain ⟨e1, ok1, l1⟩ := pHeaderAny_spec h1 hs
  obtain ⟨ht2, hcn, hcv⟩ := guardCount_spec h2
  subst ht2
  obtain ⟨e3, l3a, l3⟩ := pChunk_spec h3
  have ok3 : okBytes s1 := by
    rw [← e3] at ok1; exact (okBytes_append ok1).2
  refine ⟨hd, pay, rfl, ?_, ok3, by omega, by omega⟩
  rw [← e1, ← e3]
  simp [bDefault, List.append_assoc]

theorem parseAXIS_spec {mg s s1 : List Nat} {ctx : Option Nat} {rec : Rec}
    (h : parseAXIS mg ctx s = .ok (rec, s1)) (hs : okBytes s)
    (hm : mg.length ≤ 4) :
    ∃ hd ty un dom unus c, rec = .axis hd ty un dom unus ∧ ctx = some c
      ∧ hd.magic = mg
      ∧ ((∀ a ∈ dom, isSNaN32 a = false) → bAXIS mg hd ty un dom unus ++ s1 = s)
      ∧ okBytes s1
      ∧ dom.length = c ∧ (∀ a ∈ dom, a.length = 4)
      ∧ 16 + (2 + c) * 4 + unus.length = hd.size
      ∧ s1.length + 16 ≤ s.length := by
  obtain ⟨hd, t1, h1, hr⟩ := pbind_ok h
  obtain ⟨ty, t2, h2, hr⟩ := pbind_ok hr
  obtain ⟨un, t3, h3, hr⟩ := pbind_ok hr
  obtain ⟨c, t4, h4, hr⟩ := pbind_ok hr
  obtain ⟨dom, t5, h5, hr⟩ := pbind_ok hr
  obtain ⟨ucnt, t6, h6, hr⟩ := pbind_ok hr
  obtain ⟨unus, t7, h7, hr⟩ := pbind_ok hr
  obtain ⟨hv, hs7⟩ := pret_ok hr
  subst hv; subst hs7
  obtain ⟨e1, ok1, l1, hmg⟩ := pHeaderConst_spec h1 hs hm
  obtain ⟨e2, ok2, l2⟩ := pU_spec h2 ok1
  obtain ⟨e3, ok3, l3⟩ := pU_spec h3 ok2
  obtain ⟨ht4, hctx⟩ := needCtx_spec h4
  subst ht4
  obtain ⟨e5, l5c, l5m, l5⟩ := pCells_spec h5
  have ok5 : okBytes t5 := pCells_okBytes h5 ok3
  obtain ⟨ht6, hge, hcv⟩ := guardCount_spec h6
  subst ht6
  obtain ⟨e7, l7a, l7⟩ := pChunk_spec h7
  have ok7 : okBytes s1 := by
    rw [← e7] at ok5; exact (okBytes_append ok5).2
  refine ⟨hd, ty, un, dom, unus, c, rfl, hctx, hmg, ?_, ok7, l5c, l5m,
    by omega, by omega⟩
  intro hclean
  have hmap : dom.map f32Repack = dom := f32Repack_map_clean hclean
  rw [← e1, ← e2, ← e3, ← e5, ← e7]
  simp [bAXIS, hmap, List.append_assoc]

theorem parseDATA_spec {s s1 : List Nat} {ctx : Option Nat} {rec : Rec}
    (h : parseDATA ctx s = .ok (rec, s1)) (hs : okBytes s) :
    ∃ hd pay unus c, rec = .data hd pay unus ∧ ctx = some c
      ∧ hd.magic = tagDATA
      ∧ ((∀ a ∈ pay, isSNaN32 a = false) → bDATA hd pay unus ++ s1 = s)
      ∧ okBytes s1
      ∧ pay.length = c ∧ (∀ a ∈ pay, a.length = 4)
      ∧ 16 + 4 * c + unus.length = hd.size
      ∧ s1.length + 16 ≤ s.length := by
  obtain ⟨hd, t1, h1, hr⟩ := pbind_ok h
  obtain ⟨c, t2, h2, hr⟩ := pbind_ok hr
  obtain ⟨pay, t3, h3, hr⟩ := pbind_ok hr
  obtain ⟨ucnt, t4, h4, hr⟩ := pbind_ok hr
  obtain ⟨unus, t5, h5, hr⟩ := pbind_ok hr
  obtain ⟨hv, hs5⟩ := pret_ok hr
  subst hv; subst hs5
  obtain ⟨e1, ok1, l1, hmg⟩ := pHeaderConst_spec h1 hs (by norm_num [tagDATA])
  obtain ⟨ht2, hctx⟩ := needCtx_spec h2
  subst ht2
  obtain ⟨e3, l3c, l3m, l3⟩ := pCells_spec h3
  have ok3 : okBytes t3 := pCells_okBytes h3 ok1
  obtain ⟨ht4, hge, hcv⟩ := guardCount_spec h4
  subst ht4
  obtain ⟨e5, l5a, l5⟩ := pChunk_spec h5
  have ok5 : okBytes s1 := by
    rw [← e5] at ok3; exact (okBytes_append ok3).2
  refine ⟨hd, pay, unus, c, rfl, hctx, hmg, ?_, ok5, l3c, l3m,
    by omega, by omega⟩
  intro hclean
  have hmap : pay.map f32Repack = pay := f32Repack_map_clean hclean
  rw [← e1, ← e3, ← e5]
  simp [bDATA, hmap, List.append_assoc]

theorem parseWDF1_spec {s s1 : List Nat} {rec : Rec}
    (h : parseWDF1 s = .ok (rec, s1)) (hs : okBytes s) :
    ∃ m, rec = .meta m ∧ okBytes s1 ∧ s1.length + 16 ≤ s.length
      ∧ m.header.magic = tagWDF1
      ∧ (m.time_start.fracTicks = 0 → m.time_end.fracTicks = 0 →
          isSNaN32 m.wave_number = false → bWDF1 m ++ s1 = s) := by
  obtain ⟨header, t1, h1, hr⟩ := pbind_ok h
  obtain ⟨signature, t2, h2, hr⟩ := pbind_ok hr
  obtain ⟨version, t3, h3, hr⟩ := pbind_ok hr
  obtain ⟨size, t4, h4, hr⟩ := pbind_ok hr
  obtain ⟨uuid, t5, h5, hr⟩ := pbind_ok hr
  obtain ⟨unused0, t6, h6, hr⟩ := pbind_ok hr
  obtain ⟨unused1, t7, h7, hr⟩ := pbind_ok hr
  obtain ⟨tracks, t8, h8, hr⟩ := pbind_ok hr
  obtain ⟨points, t9, h9, hr⟩ := pbind_ok hr
  obtain ⟨capacity, t10, h10, hr⟩ := pbind_ok hr
  obtain ⟨count, t11, h11, hr⟩ := pbind_ok hr
  obtain ⟨accumulation, t12, h12, hr⟩ := pbind_ok hr
  obtain ⟨ylst, t13, h13, hr⟩ := pbind_ok hr
  obtain ⟨xlst, t14, h14, hr⟩ := pbind_ok hr
  obtain ⟨origin_length, t15, h15, hr⟩ := pbind_ok hr
  obtain ⟨application, t16, h16, hr⟩ := pbind_ok hr
  obtain ⟨major_version, t17, h17, hr⟩ := pbind_ok hr
  obtain ⟨minor_version, t18, h18, hr⟩ := pbind_ok hr
  obtain ⟨patch_version, t19, h19, hr⟩ := pbind_ok hr
  obtain ⟨build_version, t20, h20, hr⟩ := pbind_ok hr
  obtain ⟨scan_type, t21, h21, hr⟩ := pbind_ok hr
  obtain ⟨measurement_type, t22, h22, hr⟩ := pbind_ok hr
  obtain ⟨time_start, t23, h23, hr⟩ := pbind_ok hr
  obtain ⟨time_end, t24, h24, hr⟩ := pbind_ok hr
  obtain ⟨unit, t25, h25, hr⟩ := pbind_ok hr
  obtain ⟨wave_number, t26, h26, hr⟩ := pbind_ok hr
  obtain ⟨spare, t27, h27, hr⟩ := pbind_ok hr
  obtain ⟨username, t28, h28, hr⟩ := pbind_ok hr
  obtain ⟨title, t29, h29, hr⟩ := pbind_ok hr
  obtain ⟨padded, t30, h30, hr⟩ := pbind_ok hr
  obtain ⟨third_party, t31, h31, hr⟩ := pbind_ok hr
  obtain ⟨internal_use, t32, h32, hr⟩ := pbind_ok hr
  obtain ⟨hv, hs32⟩ := pret_ok hr
  subst hv; subst hs32
  obtain ⟨e1, ok1, l1, hmg⟩ := pHeaderConst_spec h1 hs (by norm_num [tagWDF1])
  obtain ⟨e2, ok2, l2⟩ := pU_spec h2 ok1
  obtain ⟨e3, ok3, l3⟩ := pU_spec h3 ok2
  obtain ⟨e4, ok4, l4⟩ := pU_spec h4 ok3
  obtain ⟨e5, ok5, l5n, l5⟩ := pArrU_spec h5 ok4
  obtain ⟨e6, ok6, l6⟩ := pU_spec h6 ok5
  obtain ⟨e7, ok7, l7⟩ := pU_spec h7 ok6
  obtain ⟨e8, ok8, l8⟩ := pU_spec h8 ok7
  obtain ⟨e9, ok9, l9⟩ := pU_spec h9 ok8
  obtain ⟨e10, ok10, l10⟩ := pU_spec h10 ok9
  obtain ⟨e11, ok11, l11⟩ := pU_spec h11 ok10
  obtain ⟨e12, ok12, l12⟩ := pU_spec h12 ok11
  obtain ⟨e13, ok13, l13⟩ := pU_spec h13 ok12
  obtain ⟨e14, ok14, l14⟩ := pU_spec h14 ok13
  obtain ⟨e15, ok15, l15⟩ := pU_spec h15 ok14
  obtain ⟨e16, ok16, l16⟩ := pStrA_spec h16 ok15
  obtain ⟨e17, ok17, l17⟩ := pU_spec h17 ok16
  obtain ⟨e18, ok18, l18⟩ := pU_spec h18 ok17
  obtain ⟨e19, ok19, l19⟩ := pU_spec h19 ok18
  obtain ⟨e20, ok20, l20⟩ := pU_spec h20 ok19
  obtain ⟨e21, ok21, l21⟩ := pU_spec h21 ok20
  obtain ⟨e22, ok22, l22⟩ := pU_spec h22 ok21
  obtain ⟨v23, hq23, e23, ok23, l23⟩ := pFiletime_spec h23 ok22
  obtain ⟨v24, hq24, e24, ok24, l24⟩ := pFiletime_spec h24 ok23
  obtain ⟨e25, ok25, l25⟩ := pU_spec h25 ok24
  obtain ⟨e26, l26a, l26⟩ := pChunk_spec h26
  have ok26 : okBytes t26 := by
    rw [← e26] at ok25; exact (okBytes_append ok25).2
  obtain ⟨e27, ok27, l27n, l27⟩ := pArrU_spec h27 ok26
  obtain ⟨e28, ok28, l28⟩ := pStrU_spec h28 ok27
  obtain ⟨e29, ok29, l29⟩ := pStrU_spec h29 ok28
  obtain ⟨e30, ok30, l30n, l30⟩ := pArrU_spec h30 ok29
  obtain ⟨e31, ok31, l31n, l31⟩ := pArrU_spec h31 ok30
  obtain ⟨e32, ok32, l32n, l32⟩ := pArrU_spec h32 ok31
  refine ⟨_, rfl, ok32, by omega, hmg, ?_⟩
  intro hden1 hden2 hwv
  have hb23 : bFiletime time_start = leBytes 8 v23 :=
    bFiletime_restore hq23 hden1
  have hb24 : bFiletime time_end = leBytes 8 v24 :=
    bFiletime_restore hq24 hden2
  have hwm : f32Repack wave_number = wave_number := f32Repack_clean hwv
  rw [← e1, ← e2, ← e3, ← e4, ← e5, ← e6, ← e7, ← e8, ← e9, ← e10, ← e11,
    ← e12, ← e13, ← e14, ← e15, ← e16, ← e17, ← e18, ← e19, ← e20, ← e21,
    ← e22, ← e23, ← e24, ← e25, ← e26, ← e27, ← e28, ← e29, ← e30, ← e31,
    ← e32]
  simp [bWDF1, hb23, hb24, hwm, List.append_assoc]


/-! ## The stream decoder (`WDF` class)

`WDF.decode` is driven by a `transitions.Machine`: every `decode` trigger
first runs `_identify` (a non-consuming `Peek` of the next 4 bytes, recording
`blocks[magic] = None`), then fires the single transition whose condition
`identified(name)` — `next(reversed(self.blocks)) == name` — holds, entering
that state and running `_decode`; `_decode` re-triggers `decode` (queued).
`blocks` is an ordered mapping with Python `dict` semantics: assigning an
existing key updates the value in place without moving the key. -/

/-- A `blocks` key: the peeked magic string, or `None` when the peek failed
(`construct.Peek` swallows `ConstructError` and yields `None`). -/
abbrev Key := Option (List Nat)

/-- The `blocks` ordered mapping. -/
abbrev Blocks := List (Key × Option Rec)

/-- Python `dict` assignment: update in place if the key exists (keeping its
position), otherwise append. -/
def odSet (k : Key) (v : Option Rec) : Blocks → Blocks
  | [] => [(k, v)]
  | (k1, v1) :: rest =>
      if k1 = k then (k, v) :: rest else (k1, v1) :: odSet k v rest

/-- Python `dict` lookup: `some v` when the key is present with value `v`
(keys are unique, so first match is the match). -/
def odGet (k : Key) : Blocks → Option (Option Rec)
  | [] => none
  | (k1, v1) :: rest => if k1 = k then some v1 else odGet k rest

/-- `next(reversed(blocks))`: the key of the last entry. -/
def lastKey (l : Blocks) : Option Key := l.getLast?.map (fun p => p.1)

/-- `_identify`: peek the next 4 bytes; `PaddedString(4, "ascii")` strips
trailing NULs and fails (hence `Peek` yields `None`) on fewer than 4 bytes or
non-ASCII content. -/
def peekMagic (s : List Nat) : Option (List Nat) :=
  if s.length < 4 then none
  else if (rstrip0 (s.take 4)).all (· < 128) then some (rstrip0 (s.take 4))
  else none

/-- `_decode`'s context gathering: when `"WDF1" in self.blocks`, the sized
codecs read their element count off the metadata record; a `None` or
non-metadata slot raises (`TypeError` subscripting `None` for `XLST`/`YLST`,
`AttributeError` for `DATA`'s `metadata.count`). -/
def gatherCtx (blocks : Blocks) (t : List Nat) : Except WErr (Option Nat) :=
  match odGet (some tagWDF1) blocks with
  | none => .ok none
  | some none =>
      if t = tagXLST || t = tagYLST then .error .ctxNone
      else if t = tagDATA then .error .badCtx
      else .ok none
  | some (some r) =>
      match r with
      | .meta m =>
          if t = tagXLST then .ok (some m.XLST)
          else if t = tagYLST then .ok (some m.YLST)
          else if t = tagDATA then .ok (some (m.count * m.points))
          else .ok none
      | _ =>
          if t = tagXLST || t = tagYLST || t = tagDATA then .error .badCtx
          else .ok none

/-- `self.decoders[state] = decoder`: ordered mapping of states decoded (the
value, always the same construct object per state, is omitted). -/
def addDecoder (t : List Nat) (l : List (List Nat)) : List (List Nat) :=
  if l.contains t then l else l ++ [t]

/-- The decoder instance state: `blocks`, `decoders`, and whether the
underlying byte source has been closed. -/
structure DState where
  blocks : Blocks
  decoders : List (List Nat)
  closed : Bool
deriving DecidableEq, Repr

/-- Outcome of `decode()`: normal completion or a propagated exception, in
both cases with the instance state and the unconsumed stream suffix. -/
inductive DResult where
  | ok (st : DState) (rest : List Nat)
  | err (e : WErr) (st : DState) (rest : List Nat)
deriving DecidableEq, Repr

def DResult.state : DResult → DState
  | .ok st _ => st
  | .err _ st _ => st

def DResult.rest : DResult → List Nat
  | .ok _ r => r
  | .err _ _ r => r

/-- One `decode` trigger cycle, repeated through the queued re-triggers.
Fuel only bounds the recursion; `wdfDecode` supplies enough that the
`fuelOut` branch is unreachable (each decoded block consumes at least its
16 header bytes). -/
def go : Nat → List Nat → DState → DResult
  | 0, s, st => .err .fuelOut st s
  | fuel + 1, s, st =>
    match lastKey (odSet (peekMagic s) none st.blocks) with
    | none => .ok { st with blocks := odSet (peekMagic s) none st.blocks } s
    | some none =>
        .ok { st with blocks := odSet (peekMagic s) none st.blocks } s
    | some (some t) =>
      if knownTag t then
        match gatherCtx (odSet (peekMagic s) none st.blocks) t with
        | .error e =>
            .err e { st with blocks := odSet (peekMagic s) none st.blocks, decoders := addDecoder t st.decoders } s
        | .ok ctx =>
          match codecParse t ctx s with
          | .error e =>
              .err e { st with blocks := odSet (peekMagic s) none st.blocks, decoders := addDecoder t st.decoders } s
          | .ok (rec, rest) =>
              go fuel rest
                { st with blocks := odSet (some t) (some rec) (odSet (peekMagic s) none st.blocks), decoders := addDecoder t st.decoders }
      else .ok { st with blocks := odSet (peekMagic s) none st.blocks } s

/-- The freshly constructed decoder: empty `blocks` and `decoders`, source
open. -/
def initState : DState := ⟨[], [], false⟩

/-- `WDF.decode()` on a stream: run the trigger loop to completion. -/
def wdfDecode (s : List Nat) : DResult := go (s.length + 1) s initState

/-! ## Derived views (`WDF.spectra`) -/

/-- Failures of the derived views. -/
inductive VErr where
  /-- `RuntimeError`: no decode attempt has run (`blocks` empty). -/
  | notDecoded
  /-- `AttributeError` re-raised from `KeyError`: prerequisite block never
  recorded. -/
  | missingBlock
  /-- `AttributeError` from attribute access on a `None` slot. -/
  | attrNone
  /-- `AttributeError` from attribute access on a record lacking the field. -/
  | badAttr
  /-- numpy `ValueError`: reshape size mismatch. -/
  | reshapeErr
deriving DecidableEq, Repr

/-- Split a flat list into `c` rows of `p` elements (row-major), as
`np.reshape(_, (c, p))` lays the data out. -/
def chunkRows {α : Type} : Nat → Nat → List α → List (List α)
  | 0, _, _ => []
  | c + 1, p, l => l.take p :: chunkRows c p (l.drop p)

/-- `np.reshape(l, (c, p))`: requires the exact element count. -/
def npReshape {α : Type} (c p : Nat) (l : List α) :
    Except VErr (List (List α)) :=
  if l.length = c * p then .ok (chunkRows c p l) else .error .reshapeErr

/-- `metadata.count` / `metadata.points`: attribute access succeeds only on
a metadata record (`AttributeError` otherwise). -/
def metaOf : Rec → Option WDF1Rec
  | .meta m => some m
  | _ => none

/-- `.payload` attribute access on the DATA slot. -/
def dataPayloadOf : Rec → Option (List (List Nat))
  | .data _ pay _ => some pay
  | _ => none

/-- `WDF.spectra`: guard on an empty `blocks`, read `count`/`points` off the
WDF1 slot, reshape the DATA payload. -/
def spectraFn (blocks : Blocks) : Except VErr (List (List (List Nat))) :=
  if blocks.isEmpty then .error .notDecoded
  else
    match odGet (some tagWDF1) blocks with
    | none => .error .missingBlock
    | some none => .error .attrNone
    | some (some r) =>
      match metaOf r with
      | none => .error .badAttr
      | some m =>
        match odGet (some tagDATA) blocks with
        | none => .error .missingBlock
        | some none => .error .attrNone
        | some (some d) =>
          match dataPayloadOf d with
          | none => .error .badAttr
          | some pay => npReshape m.count m.points pay


/-! ## Ordered-mapping lemmas -/

theorem getLast?_concat2 {α : Type} (l : List α) (a : α) :
    (l ++ [a]).getLast? = some a := by
  induction l with
  | nil => rfl
  | cons x xs ih =>
      rw [List.cons_append]
      cases hxs : xs ++ [a] with
      | nil => exact absurd hxs (by simp)
      | cons y ys =>
          rw [List.getLast?_cons_cons, ← hxs, ih]

theorem odSet_append {k : Key} {v : Option Rec} {l : Blocks}
    (h : ∀ p ∈ l, p.1 ≠ k) : odSet k v l = l ++ [(k, v)] := by
  induction l with
  | nil => rfl
  | cons q rest ih =>
      obtain ⟨k1, v1⟩ := q
      unfold odSet
      rw [if_neg (h (k1, v1) (List.mem_cons_self _ _))]
      rw [List.cons_append]
      congr 1
      exact ih fun p hp => h p (List.mem_cons_of_mem _ hp)

theorem odSet_odSet (k : Key) (v w : Option Rec) (l : Blocks) :
    odSet k v (odSet k w l) = odSet k v l := by
  induction l with
  | nil => simp [odSet]
  | cons q rest ih =>
      obtain ⟨k1, v1⟩ := q
      by_cases hk : k1 = k
      · subst hk
        simp [odSet]
      · simp [odSet, hk, ih]

theorem odGet_odSet (k : Key) (v : Option Rec) (l : Blocks) :
    odGet k (odSet k v l) = some v := by
  induction l with
  | nil => simp [odSet, odGet]
  | cons q rest ih =>
      obtain ⟨k1, v1⟩ := q
      by_cases hk : k1 = k
      · subst hk
        simp [odSet, odGet]
      · simp [odSet, odGet, hk, ih]

theorem lastKey_concat (l : Blocks) (k : Key) (v : Option Rec) :
    lastKey (l ++ [(k, v)]) = some k := by
  unfold lastKey
  rw [getLast?_concat2]
  rfl

theorem genericTags_wf : ∀ t ∈ genericTags, t.length ≤ 4 := by decide

/-- The catalog round-trip core: a successful parse re-builds to exactly the
consumed bytes (given whole-second-aligned metadata timestamps), consumes at
least the 16 header bytes, and leaves a well-formed remainder. -/
theorem codecParse_spec {t : List Nat} {ctx : Option Nat} {s rest : List Nat}
    {rec : Rec} (h : codecParse t ctx s = .ok (rec, rest)) (hs : okBytes s) :
    okBytes rest ∧ rest.length + 16 ≤ s.length
      ∧ (tsAligned rec → cellsClean rec → codecBuild t rec ++ rest = s) := by
  unfold codecParse at h
  split at h
  · obtain ⟨m, hrec, hok, hlen, hmg, hbuild⟩ := parseWDF1_spec h hs
    subst hrec
    refine ⟨hok, hlen, ?_⟩
    intro hal hcl
    obtain ⟨hd1, hd2⟩ := hal
    exact hbuild hd1 hd2 hcl
  · split at h
    · obtain ⟨hd, pay, unus, c, hrec, hctx, hmg, hbuild, hok, hlc, hlm,
        hsz, hlen⟩ := parseDATA_spec h hs
      subst hrec
      exact ⟨hok, hlen, fun _ hcl => hbuild hcl⟩
    · split at h
      · obtain ⟨hd, ty, un, dom, unus, c, hrec, hctx, hmg, hbuild, hok,
          hlc, hlm, hsz, hlen⟩ := parseAXIS_spec h hs (by norm_num [tagYLST])
        subst hrec
        refine ⟨hok, hlen, fun _ hcl => ?_⟩
        show bAXIS hd.magic hd ty un dom unus ++ rest = s
        rw [hmg]
        exact hbuild hcl
      · split at h
        · obtain ⟨hd, ty, un, dom, unus, c, hrec, hctx, hmg, hbuild, hok,
            hlc, hlm, hsz, hlen⟩ := parseAXIS_spec h hs
            (by norm_num [tagXLST])
          subst hrec
          refine ⟨hok, hlen, fun _ hcl => ?_⟩
          show bAXIS hd.magic hd ty un dom unus ++ rest = s
          rw [hmg]
          exact hbuild hcl
        · split at h
          · rename_i hmem
            have hlen4 : t.length ≤ 4 := by
              rw [List.contains_iff_exists_mem_beq] at hmem
              obtain ⟨u, hu, hbeq⟩ := hmem
              rw [eq_of_beq hbeq]
              exact genericTags_wf u hu
            obtain ⟨hd, pay, hrec, hmg, hbuild, hok, hsz, hlen⟩ :=
              parseDefaultC_spec h hs hlen4
            subst hrec
            refine ⟨hok, hlen, fun _ _ => ?_⟩
            show (if genericTags.contains t = true
              then bDefault (some hd.magic) hd pay
              else bDefault none hd pay) ++ rest = s
            rw [if_pos hmem, hmg]
            exact hbuild
          · rename_i hmem
            obtain ⟨hd, pay, hrec, hbuild, hok, hsz, hlen⟩ :=
              parseDefaultA_spec h hs
            subst hrec
            refine ⟨hok, hlen, fun _ _ => ?_⟩
            show (if genericTags.contains t = true
              then bDefault (some hd.magic) hd pay
              else bDefault none hd pay) ++ rest = s
            rw [if_neg hmem]
            exact hbuild


/-! ## Peek and truncation facts -/

theorem pChunk_err {w : Nat} {s : List Nat} (h : s.length < w) :
    pChunk w s = .error .truncated := by
  unfold pChunk
  rw [if_neg (by omega)]

theorem pChunk_ok {w : Nat} {s : List Nat} (h : w ≤ s.length) :
    pChunk w s = .ok (s.take w, s.drop w) := by
  unfold pChunk
  rw [if_pos h]

theorem pbind_ok_rw {α β : Type} {x : Pr α} {f : α → Pr β} {s s1 : List Nat}
    {a : α} (hx : x s = .ok (a, s1)) : pbind x f s = f a s1 := by
  unfold pbind
  rw [hx]

theorem pU_err {w : Nat} {s : List Nat} (h : s.length < w) :
    pU w s = .error .truncated := by
  unfold pU
  exact pbind_err (pChunk_err h)

theorem peekMagic_some {s t : List Nat} (h : peekMagic s = some t) :
    4 ≤ s.length ∧ t.length ≤ 4
      ∧ s.take 4 = t ++ List.replicate (4 - t.length) 0 := by
  unfold peekMagic at h
  split at h
  · cases h
  · rename_i hlen
    split at h
    · injection h with h1
      subst h1
      have hl4 : (s.take 4).length = 4 := by
        rw [List.length_take]
        omega
      have hstrip := rstrip0_spec (s.take 4)
      have hle : (rstrip0 (s.take 4)).length ≤ 4 := by
        have := rstrip0_length_le (s.take 4)
        omega
      refine ⟨by omega, hle, ?_⟩
      rw [hl4] at hstrip
      exact hstrip.symm
    · cases h

theorem pConst_peek {s t : List Nat} (h : peekMagic s = some t) :
    pConst t s = .ok (t, s.drop t.length) := by
  obtain ⟨h4, hle, htake⟩ := peekMagic_some h
  have htl : s.take t.length = t := by
    have h1 : s.take t.length = (s.take 4).take t.length := by
      rw [List.take_take]
      congr 1
      omega
    rw [h1, htake, List.take_left]
  unfold pConst
  rw [pChunk_ok (by omega), htl]
  simp

theorem pHeaderConst_short {s t : List Nat} (hpeek : peekMagic s = some t)
    (h16 : s.length < 16) : pHeaderConst t s = .error .truncated := by
  obtain ⟨h4, hle, htake⟩ := peekMagic_some hpeek
  unfold pHeaderConst
  rw [pbind_ok_rw (pConst_peek hpeek)]
  have hdl : (s.drop t.length).length = s.length - t.length := by
    rw [List.length_drop]
  rw [pbind_ok_rw (pChunk_ok (by omega))]
  rw [List.drop_drop]
  have hd4 : t.length + (4 - t.length) = 4 := by omega
  rw [hd4]
  by_cases h8 : s.length < 8
  · rw [pbind_err (pU_err (by rw [List.length_drop]; omega))]
  · have hu : pU 4 (s.drop 4)
        = .ok (leVal ((s.drop 4).take 4), (s.drop 4).drop 4) := by
      unfold pU
      rw [pbind_ok_rw (pChunk_ok (by rw [List.length_drop]; omega))]
      rfl
    rw [pbind_ok_rw hu, List.drop_drop]
    rw [pbind_err (pU_err (by rw [List.length_drop]; omega))]

/-- Every catalog codec reads its 16 header bytes first, so a stream shorter
than a header (but long enough that the peek identified a catalog tag) fails
with `StreamError`. -/
theorem codecParse_short (ctx : Option Nat) {t s : List Nat}
    (hpeek : peekMagic s = some t) (hk : knownTag t = true)
    (h16 : s.length < 16) : codecParse t ctx s = .error .truncated := by
  unfold codecParse
  split
  · rename_i h1
    subst h1
    unfold parseWDF1
    exact pbind_err (pHeaderConst_short hpeek h16)
  · split
    · rename_i h1
      subst h1
      unfold parseDATA
      exact pbind_err (pHeaderConst_short hpeek h16)
    · split
      · rename_i h1
        subst h1
        unfold parseAXIS
        exact pbind_err (pHeaderConst_short hpeek h16)
      · split
        · rename_i h1
          subst h1
          unfold parseAXIS
          exact pbind_err (pHeaderConst_short hpeek h16)
        · split
          · unfold parseDefault
            exact pbind_err (pHeaderConst_short hpeek h16)
          · rename_i h1 h2 h3 h4 h5
            rw [knownTag] at hk
            simp [h1, h2, h3, h4] at hk
            simp at h5
            exact absurd hk h5

/-! ## Step characterizations of the trigger loop -/

theorem go_exit_nokey {n : Nat} {s : List Nat} {st : DState}
    (h : lastKey (odSet (peekMagic s) none st.blocks) = some none) :
    go (n + 1) s st
      = .ok { st with blocks := odSet (peekMagic s) none st.blocks } s := by
  unfold go
  split
  · rename_i heq
    rw [h] at heq
  · rfl
  · rename_i t2 heq
    rw [h] at heq
    simp at heq

theorem go_exit_parseerr {n : Nat} {s : List Nat} {st : DState}
    {t : List Nat} {ctx : Option Nat} {e : WErr}
    (h : lastKey (odSet (peekMagic s) none st.blocks) = some (some t))
    (hk : knownTag t = true)
    (hg : gatherCtx (odSet (peekMagic s) none st.blocks) t = .ok ctx)
    (hp : codecParse t ctx s = .error e) :
    go (n + 1) s st
      = .err e { st with blocks := odSet (peekMagic s) none st.blocks, decoders := addDecoder t st.decoders } s := by
  unfold go
  split
  · rename_i heq
    rw [h] at heq
    simp at heq
  · rename_i heq
    rw [h] at heq
    simp at heq
  · rename_i t2 heq
    rw [h] at heq
    injection heq with heq1
    injection heq1 with heq2
    subst heq2
    rw [if_pos hk]
    split
    · rename_i e2 heq2
      rw [hg] at heq2
      simp at heq2
    · rename_i ctx2 heq2
      rw [hg] at heq2
      injection heq2 with he
      subst he
      split
      · rename_i e2 heq3
        rw [hp] at heq3
        injection heq3 with he2
        subst he2
        rfl
      · rename_i rec2 rest2 heq3
        rw [hp] at heq3
        simp at heq3

theorem go_step_decode {n : Nat} {s rest : List Nat} {st : DState}
    {t : List Nat} {ctx : Option Nat} {rec : Rec}
    (h : lastKey (odSet (peekMagic s) none st.blocks) = some (some t))
    (hk : knownTag t = true)
    (hg : gatherCtx (odSet (peekMagic s) none st.blocks) t = .ok ctx)
    (hp : codecParse t ctx s = .ok (rec, rest)) :
    go (n + 1) s st
      = go n rest { st with blocks := odSet (some t) (some rec) (odSet (peekMagic s) none st.blocks), decoders := addDecoder t st.decoders } := by
  conv_lhs => unfold go
  split
  · rename_i heq
    rw [h] at heq
    simp at heq
  · rename_i heq
    rw [h] at heq
    simp at heq
  · rename_i t2 heq
    rw [h] at heq
    injection heq with heq1
    injection heq1 with heq2
    subst heq2
    rw [if_pos hk]
    split
    · rename_i e2 heq2
      rw [hg] at heq2
      simp at heq2
    · rename_i ctx2 heq2
      rw [hg] at heq2
      injection heq2 with he
      subst he
      split
      · rename_i e2 heq3
        rw [hp] at heq3
        simp at heq3
      · rename_i rec2 rest2 heq3
        rw [hp] at heq3
        injection heq3 with he2
        injection he2 with he3 he4
        subst he3
        subst he4
        rfl

/-- No exit path of the trigger loop ever touches the byte source handle:
`self.close = self.stream.close` is assigned in `__attrs_post_init__` and
never invoked by `decode`. -/
theorem go_closed : ∀ (fuel : Nat) (s : List Nat) (st : DState),
    ((go fuel s st).state).closed = st.closed := by
  intro fuel
  induction fuel with
  | zero => intro s st; rfl
  | succ n ih =>
      intro s st
      unfold go
      split
      · rfl
      · rfl
      · split
        · split
          · rfl
          · split
            · rfl
            · rw [ih]
        · rfl


theorem chunkRows_length {α : Type} (c p : Nat) (l : List α) :
    (chunkRows c p l).length = c := by
  induction c generalizing l with
  | zero => rfl
  | succ c ih => simp [chunkRows, ih]

theorem chunkRows_rows {α : Type} : ∀ (c p : Nat) (l : List α),
    l.length = c * p → ∀ row ∈ chunkRows c p l, row.length = p := by
  intro c
  induction c with
  | zero => intro p l h row hrow; cases hrow
  | succ c ih =>
      intro p l h row hrow
      cases hrow with
      | head =>
          rw [List.length_take]
          have hp : p ≤ l.length := by
            rw [h, Nat.succ_mul]
            omega
          omega
      | tail _ h2 =>
          refine ih p (l.drop p) ?_ row h2
          rw [List.length_drop, h, Nat.succ_mul]
          omega

theorem chunkRows_flatten {α : Type} : ∀ (c p : Nat) (l : List α),
    l.length = c * p → (chunkRows c p l).flatten = l := by
  intro c
  induction c with
  | zero =>
      intro p l h
      rw [Nat.zero_mul] at h
      rw [List.length_eq_zero] at h
      rw [h]
      rfl
  | succ c ih =>
      intro p l h
      show l.take p ++ (chunkRows c p (l.drop p)).flatten = l
      rw [ih p (l.drop p) (by rw [List.length_drop, h, Nat.succ_mul]; omega)]
      exact List.take_append_drop _ _

theorem odGet_ne_nil {k : Key} {l : Blocks} {v : Option Rec}
    (h : odGet k l = some v) : l.isEmpty = false := by
  cases l with
  | nil => cases h
  | cons p rest => rfl


/-! ## Concrete inputs -/

/-- The 16-byte header-only TEXT block from `TestWDF.test_decoding`. -/
def textBlock16 : List Nat := tagTEXT ++ [0, 0, 0, 0] ++ [16, 0, 0, 0, 0, 0, 0, 0]

/-- A TEXT block of size 17 with payload byte 7. -/
def textBlockA : List Nat := tagTEXT ++ [0, 0, 0, 0] ++ [17, 0, 0, 0, 0, 0, 0, 0] ++ [7]

/-- A TEXT block of size 17 with payload byte 9. -/
def textBlockB : List Nat := tagTEXT ++ [0, 0, 0, 0] ++ [17, 0, 0, 0, 0, 0, 0, 0] ++ [9]

/-- Two consecutive TEXT blocks with different payloads. -/
def dupTextStream : List Nat := textBlockA ++ textBlockB

/-- An XLST block of size 30: type 1, unit 2, one f32 cell, 2 unused bytes. -/
def axisCexBytes : List Nat :=
  tagXLST ++ [0, 0, 0, 0] ++ [30, 0, 0, 0, 0, 0, 0, 0]
    ++ [1, 0, 0, 0] ++ [2, 0, 0, 0] ++ [9, 9, 9, 9] ++ [5, 5]

/-- A DATA block of size 23: one f32 cell, 3 unused bytes. -/
def dataCexBytes : List Nat :=
  tagDATA ++ [0, 0, 0, 0] ++ [23, 0, 0, 0, 0, 0, 0, 0]
    ++ [1, 2, 3, 4] ++ [5, 6, 7]

/-- A 512-byte WDF1 block, all fields zero except `time_start`, whose tick
count `MS_ORIGIN + 5000000` is half a second past the whole-second grid
(the float division Python performs is exact at this value). -/
def wdf1CexBytes : List Nat :=
  tagWDF1 ++ [0, 0, 0, 0] ++ [0, 2, 0, 0, 0, 0, 0, 0]
    ++ List.replicate 120 0
    ++ leBytes 8 116444736005000000
    ++ List.replicate 368 0

/-- A well-formed 20-byte DATA block (`ctx = 1` cell, no unused bytes)
whose single f32 cell `01 00 80 7F` is a signaling NaN: the C float round
trip quiets it, so re-encoding writes `01 00 C0 7F`. -/
def dataSNaNBytes : List Nat :=
  tagDATA ++ [0, 0, 0, 0] ++ [20, 0, 0, 0, 0, 0, 0, 0] ++ [1, 0, 128, 127]

/-- Decode a block with the tag-selected codec, then re-encode it. -/
def reEncode (t : List Nat) (ctx : Option Nat) (s : List Nat) :
    Option (List Nat) :=
  match codecParse t ctx s with
  | .ok (rec, rest) => some (codecBuild t rec ++ rest)
  | .error _ => none


/-! ## Claim theorems -/

set_option maxRecDepth 8000 in
set_option maxHeartbeats 1000000 in
/-- C1 (counterexample): the round-trip law fails as stated, in two ways.
A well-formed 512-byte WDF1 block whose `time_start` tick count is half a
second past the whole-second grid decodes successfully, but re-encoding
truncates the timestamp to whole seconds
(`calendar.timegm(utctimetuple())` drops the fraction); and a well-formed
DATA block whose f32 cell is the signaling NaN `01 00 80 7F` decodes
successfully but is re-encoded with the cell quieted to `01 00 C0 7F`.  In
both cases `encode(decode(bytes)) ≠ bytes`. -/
theorem c1_counterexample :
    (reEncode tagWDF1 none wdf1CexBytes ≠ some wdf1CexBytes
      ∧ (reEncode tagWDF1 none wdf1CexBytes).isSome = true)
    ∧ (reEncode tagDATA (some 1) dataSNaNBytes ≠ some dataSNaNBytes
      ∧ reEncode tagDATA (some 1) dataSNaNBytes
          = some (tagDATA ++ [0, 0, 0, 0] ++ [20, 0, 0, 0, 0, 0, 0, 0]
              ++ [1, 0, 192, 127])) := by
  refine ⟨by decide, by decide⟩

/-- C1 (amended): for every codec in the catalog — the metadata, data, axis
and known-tag generic codecs, and the free-magic generic codec applied to
unknown tags — re-encoding a successfully decoded record reproduces the
original bytes exactly, trailing/unused and padding bytes included,
PROVIDED the metadata timestamps are whole-second aligned and no f32 cell
(data payload, axis domain, metadata wave number) is a signaling NaN.  The
`FiletimeAdapter` otherwise truncates sub-second ticks on re-encode, and
`struct.pack` writes signaling-NaN cells quieted; both conditions are
vacuous for generic records. -/
theorem c1_roundtrip : ∀ (t : List Nat) (ctx : Option Nat)
    (s rest : List Nat) (rec : Rec),
    okBytes s → codecParse t ctx s = .ok (rec, rest) → tsAligned rec →
    cellsClean rec → codecBuild t rec ++ rest = s := by
  intro t ctx s rest rec hs h hal hcl
  exact (codecParse_spec h hs).2.2 hal hcl

/-- C1 witness: the round trip at the concrete TEXT block of the test
suite. -/
theorem c1_roundtrip_witness :
    codecBuild tagTEXT (.generic ⟨tagTEXT, [], 0, 16⟩ []) ++ ([] : List Nat)
      = textBlock16 :=
  c1_roundtrip tagTEXT none textBlock16 []
    (.generic ⟨tagTEXT, [], 0, 16⟩ []) (by decide) (by decide) trivial
    trivial

/-- C5 (counterexample): the stream `b"TE"` is truncated mid-header with
more than zero and fewer than 16 bytes remaining, yet `decode()` completes
normally (the 4-byte peek fails, which the loop treats as clean
end-of-stream), contradicting the claimed `TruncatedInput`. -/
theorem c5_counterexample :
    wdfDecode [84, 69] = .ok ⟨[(none, none)], [], false⟩ [84, 69] := by
  decide

/-- C5 (amended): truncation behavior splits at the 4-byte peek, not at
zero bytes.  With fewer than 4 bytes remaining (including exactly zero, the
block-boundary case) `decode()` completes normally holding the blocks
already read; with at least 4 but fewer than 16 bytes remaining and a
catalog tag peeked, the header read raises `StreamError`
(`TruncatedInput`). -/
theorem c5_truncation :
    (∀ (fuel : Nat) (s : List Nat) (st : DState),
        s.length < 4 → (∀ p ∈ st.blocks, p.1 ≠ none) →
        go (fuel + 1) s st
          = .ok { st with blocks := st.blocks ++ [(none, none)] } s)
  ∧ (∀ (fuel : Nat) (s : List Nat) (st : DState) (t : List Nat)
        (ctx : Option Nat),
        s.length < 16 → peekMagic s = some t → knownTag t = true →
        (∀ p ∈ st.blocks, p.1 ≠ some t) →
        gatherCtx (st.blocks ++ [(some t, none)]) t = .ok ctx →
        go (fuel + 1) s st
          = .err .truncated { st with blocks := st.blocks ++ [(some t, none)], decoders := addDecoder t st.decoders } s) := by
  constructor
  · intro fuel s st hs4 hfresh
    have hp : peekMagic s = none := by
      unfold peekMagic
      rw [if_pos hs4]
    have happ : odSet (peekMagic s) none st.blocks
        = st.blocks ++ [(none, none)] := by
      rw [hp]
      exact odSet_append hfresh
    have hlast : lastKey (odSet (peekMagic s) none st.blocks)
        = some none := by
      rw [happ]
      exact lastKey_concat _ _ _
    rw [go_exit_nokey hlast, happ]
  · intro fuel s st t ctx hs16 hp hk hfresh hg
    have happ : odSet (peekMagic s) none st.blocks
        = st.blocks ++ [(some t, none)] := by
      rw [hp]
      exact odSet_append hfresh
    have hlast : lastKey (odSet (peekMagic s) none st.blocks)
        = some (some t) := by
      rw [happ]
      exact lastKey_concat _ _ _
    have hg2 : gatherCtx (odSet (peekMagic s) none st.blocks) t = .ok ctx := by
      rw [happ]
      exact hg
    have hperr := codecParse_short ctx hp hk hs16
    rw [go_exit_parseerr hlast hk hg2 hperr, happ]

/-- C5 witness: the amended behavior at a 2-byte tail and at a 15-byte
truncated TEXT block. -/
theorem c5_truncation_witness :
    go 1 [84, 69] initState = .ok ⟨[(none, none)], [], false⟩ [84, 69]
      ∧ go 1 (textBlock16.take 15) initState
        = .err .truncated ⟨[(some tagTEXT, none)], [tagTEXT], false⟩
            (textBlock16.take 15) := by
  constructor
  · exact c5_truncation.1 0 [84, 69] initState (by decide)
      (by intro p hp; cases hp)
  · exact c5_truncation.2 0 (textBlock16.take 15) initState tagTEXT none
      (by decide) (by decide) (by decide) (by intro p hp; cases hp)
      (by decide)

/-- C6 (counterexample): after `decode()` on an empty byte source the
`blocks` mapping is NOT empty — the failed peek left a `None → None`
entry. -/
theorem c6_counterexample :
    (wdfDecode []).state.blocks = [(none, none)]
      ∧ ([(none, none)] : Blocks) ≠ [] := by
  decide

/-- C6 (amended): an empty byte source decodes successfully into a
`DecodedStream` whose single entry records the failed peek (`None → None`),
with no decoded blocks; `spectra` raises `RuntimeError` (NotDecoded) before
any decode attempt and `AttributeError` (MissingBlock) after the no-op
`decode()`. -/
theorem c6_empty_source :
    wdfDecode [] = .ok ⟨[(none, none)], [], false⟩ []
      ∧ spectraFn [] = .error .notDecoded
      ∧ spectraFn [(none, none)] = .error .missingBlock := by
  refine ⟨by decide, rfl, rfl⟩

/-- C8 (counterexample): the tick count `MS_ORIGIN + 5000000` decodes to an
instant with a non-zero sub-second component — `utcfromtimestamp` keeps the
half-second fraction as 500000 microseconds — contradicting the claim that
decode always truncates to whole seconds.  (The float arithmetic Python
performs is exact at this value: the true quotient `0.5` is a double.) -/
theorem c8_counterexample :
    toDatetime 116444736005000000 = some ⟨0, 500000, 5000000⟩
      ∧ (500000 : Nat) ≠ 0 := by
  decide

/-- C8 (amended): `converters.datetime` performs true division and keeps the
sub-second part at `utcfromtimestamp`'s microsecond resolution: a
whole-second-aligned tick count decodes with `microsecond = 0`, and a tick
count half a second past the aligned grid (in the supported year range)
decodes with `microsecond = 500000` — the result is not truncated to whole
seconds.  (Truncation happens in `converters.filetime`, the encode
direction.  Both parts quantify only over inputs whose true quotient is
exactly representable as a double — an integer or half-integer below
`maxSec < 2^38` — so the exact arithmetic here provably agrees with the
float arithmetic of the code.) -/
theorem c8_decode_subsecond :
    (∀ (x : Nat) (u : UtcTime), toDatetime x = some u →
        (msPrecision : ℤ) ∣ ((x : ℤ) - (msOrigin : ℤ)) → u.microsecond = 0)
  ∧ (∀ n : Nat, (n : ℤ) < maxSec →
      toDatetime (msOrigin + msPrecision * n + 5000000)
        = some ⟨(n : ℤ), 500000, 5000000⟩) := by
  constructor
  · intro x u hsome hdvd
    have hfr : fracOf x = 0 := by
      unfold fracOf tickOffset
      rw [Int.emod_eq_zero_of_dvd hdvd]
      rfl
    have hus : usRound x = 0 := by
      unfold usRound
      rw [hfr]
      decide
    unfold toDatetime at hsome
    by_cases hlt : secOf x < maxSec
    · rw [if_pos hlt] at hsome
      injection hsome with h3
      subst h3
      show usOf x = 0
      unfold usOf
      rw [hus]
      decide
    · rw [if_neg hlt] at hsome
      simp at hsome
  · intro n hn
    have hoff : tickOffset (msOrigin + msPrecision * n + 5000000)
        = 5000000 + (msPrecision : ℤ) * n := by
      unfold tickOffset msOrigin msPrecision
      push_cast
      ring
    have hfr : fracOf (msOrigin + msPrecision * n + 5000000) = 5000000 := by
      unfold fracOf
      rw [hoff, Int.add_mul_emod_self_left]
      rfl
    have hus : usRound (msOrigin + msPrecision * n + 5000000) = 500000 := by
      unfold usRound
      rw [hfr]
      decide
    have hsec : secOf (msOrigin + msPrecision * n + 5000000) = (n : ℤ) := by
      unfold secOf
      rw [hus, if_neg (by decide), hoff,
        Int.add_mul_ediv_left _ _ (by norm_num [msPrecision] : (msPrecision : ℤ) ≠ 0)]
      norm_num [msPrecision]
    have husOf : usOf (msOrigin + msPrecision * n + 5000000) = 500000 := by
      unfold usOf
      rw [hus]
      decide
    unfold toDatetime
    rw [hsec, husOf, hfr, if_pos hn]

/-- C8 witness: the amended statement at the epoch origin (an aligned tick
count, decoding with microsecond 0) and at the half-second offset with
`n = 0`. -/
theorem c8_decode_subsecond_witness :
    (⟨0, 0, 0⟩ : UtcTime).microsecond = 0
      ∧ toDatetime (msOrigin + msPrecision * 0 + 5000000)
        = some ⟨0, 500000, 5000000⟩ := by
  constructor
  · exact c8_decode_subsecond.1 msOrigin ⟨0, 0, 0⟩ (by decide) ⟨0, by ring⟩
  · exact c8_decode_subsecond.2 0 (by decide)

/-- C9 (counterexample): after a complete, successful `decode()` of a
one-block stream, the byte source has been released zero times — not
exactly once.  The decoder assigns `self.close = self.stream.close` but no
decode path ever invokes it. -/
theorem c9_counterexample :
    (wdfDecode textBlock16).state.closed = false := by
  decide

/-- C9 (amended): `decode()` releases the underlying byte source on NO exit
path — normal completion, decode failure, or early abandonment all leave it
open; it is closed only if the caller explicitly invokes the exposed
`close` method. -/
theorem c9_decode_never_closes : ∀ s : List Nat,
    (wdfDecode s).state.closed = false := by
  intro s
  unfold wdfDecode
  rw [go_closed]
  rfl


/-! ## Remaining claim theorems -/

/-- C3: `spectra` reshapes the DATA payload row-major into a
`count × points` matrix read off the metadata block. -/
theorem c3_spectra_shape : ∀ (blocks : Blocks) (m : WDF1Rec) (hd : Hdr)
    (pay : List (List Nat)) (unus : List Nat),
    odGet (some tagWDF1) blocks = some (some (.meta m)) →
    odGet (some tagDATA) blocks = some (some (.data hd pay unus)) →
    pay.length = m.count * m.points →
    spectraFn blocks = .ok (chunkRows m.count m.points pay)
      ∧ (chunkRows m.count m.points pay).length = m.count
      ∧ (∀ row ∈ chunkRows m.count m.points pay, row.length = m.points)
      ∧ (chunkRows m.count m.points pay).flatten = pay := by
  intro blocks m hd pay unus hw hdata hlen
  refine ⟨?_, chunkRows_length _ _ _, chunkRows_rows _ _ _ hlen,
    chunkRows_flatten _ _ _ hlen⟩
  unfold spectraFn
  rw [if_neg (by rw [odGet_ne_nil hw]; exact Bool.false_ne_true)]
  split
  · rename_i heq
    rw [hw] at heq
    simp at heq
  · rename_i heq
    rw [hw] at heq
    simp at heq
  · rename_i r heq
    rw [hw] at heq
    injection heq with h1
    injection h1 with h2
    subst h2
    split
    · rename_i heqm
      simp [metaOf] at heqm
    · rename_i m2 heqm
      simp [metaOf] at heqm
      subst heqm
      split
      · rename_i heq2
        rw [hdata] at heq2
        simp at heq2
      · rename_i heq2
        rw [hdata] at heq2
        simp at heq2
      · rename_i d heq2
        rw [hdata] at heq2
        injection heq2 with h3
        injection h3 with h4
        subst h4
        split
        · rename_i heqp
          simp [dataPayloadOf] at heqp
        · rename_i pay2 heqp
          simp [dataPayloadOf] at heqp
          subst heqp
          unfold npReshape
          rw [if_pos hlen]

/-- The metadata record of Scenario C: `count = 10`, `points = 1021`, all
other fields zero. -/
def c3meta : WDF1Rec :=
  ⟨⟨tagWDF1, [], 0, 512⟩, 0, 0, 0, [0, 0, 0, 0], 0, 0, 0, 1021, 0, 10,
   0, 0, 0, 0, [], 0, 0, 0, 0, 0, 0, ⟨0, 0, 0⟩, ⟨0, 0, 0⟩, 0, [0, 0, 0, 0],
   [0, 0, 0, 0, 0, 0], [], [], [0, 0, 0, 0, 0, 0], [0, 0, 0, 0],
   [0, 0, 0, 0]⟩

/-- A matching DATA payload: 10 × 1021 f32 cells. -/
def c3pay : List (List Nat) := List.replicate 10210 [0, 0, 0, 0]

/-- Decoded blocks of Scenario C. -/
def c3blocks : Blocks :=
  [(some tagWDF1, some (.meta c3meta)),
   (some tagDATA, some (.data ⟨tagDATA, [], 0, 16⟩ c3pay []))]

/-- C3 witness: Scenario C — `count = 10`, `points = 1021`, matching DATA
block; the matrix has 10 rows of 1021 cells. -/
theorem c3_spectra_shape_witness :
    spectraFn c3blocks = .ok (chunkRows 10 1021 c3pay)
      ∧ (chunkRows 10 1021 c3pay).length = 10
      ∧ (∀ row ∈ chunkRows 10 1021 c3pay, row.length = 1021) := by
  have h := c3_spectra_shape c3blocks c3meta ⟨tagDATA, [], 0, 16⟩ c3pay []
    (by rfl) (by rfl)
    (by show c3pay.length = c3meta.count * c3meta.points
        rw [show c3pay = List.replicate 10210 [0, 0, 0, 0] from rfl,
          List.length_replicate]
        rfl)
  exact ⟨h.1, h.2.1, h.2.2.1⟩

/-- C4 (counterexample): a stream of two TEXT blocks with different
payloads.  The record kept under "TEXT" after `decode()` is the SECOND
block's record (payload byte 9), not the first occurrence's (payload byte
7): later occurrences do replace earlier ones. -/
theorem c4_counterexample :
    odGet (some tagTEXT) ((wdfDecode dupTextStream).state.blocks)
        = some (some (.generic ⟨tagTEXT, [], 0, 17⟩ [9]))
      ∧ (some (some (.generic ⟨tagTEXT, [], 0, 17⟩ [9] : Rec)))
        ≠ (some (some (.generic ⟨tagTEXT, [], 0, 17⟩ [7] : Rec))) := by
  decide

/-- C4 (amended): when the peeked tag repeats the most recently recorded
key, the machine re-enters that state and the freshly decoded record
replaces the earlier one in place (last-wins).  (A repeat of an earlier,
non-adjacent tag instead mis-dispatches to the codec of the last recorded
tag, which fails on the magic check — see the C10 counterexample.) -/
theorem c4_last_wins : ∀ (fuel : Nat) (s rest : List Nat) (st : DState)
    (t : List Nat) (ctx : Option Nat) (rec : Rec),
    peekMagic s = some t → knownTag t = true →
    lastKey (odSet (some t) none st.blocks) = some (some t) →
    gatherCtx (odSet (some t) none st.blocks) t = .ok ctx →
    codecParse t ctx s = .ok (rec, rest) →
    go (fuel + 1) s st
        = go fuel rest { st with blocks := odSet (some t) (some rec) st.blocks, decoders := addDecoder t st.decoders }
      ∧ odGet (some t) (odSet (some t) (some rec) st.blocks)
        = some (some rec) := by
  intro fuel s rest st t ctx rec hp hk hlast hg hparse
  have hlast2 : lastKey (odSet (peekMagic s) none st.blocks)
      = some (some t) := by
    rw [hp]
    exact hlast
  have hg2 : gatherCtx (odSet (peekMagic s) none st.blocks) t = .ok ctx := by
    rw [hp]
    exact hg
  constructor
  · rw [go_step_decode hlast2 hk hg2 hparse, hp, odSet_odSet]
  · exact odGet_odSet _ _ _

/-- The decoder state after the first TEXT block of `dupTextStream`. -/
def c4state : DState :=
  ⟨[(some tagTEXT, some (.generic ⟨tagTEXT, [], 0, 17⟩ [7]))],
   [tagTEXT], false⟩

/-- C4 witness: re-decoding the repeated TEXT tag replaces the stored
record with the new payload. -/
theorem c4_last_wins_witness :
    go 1 textBlockB c4state
        = go 0 [] ⟨[(some tagTEXT, some (.generic ⟨tagTEXT, [], 0, 17⟩ [9]))], [tagTEXT], false⟩
      ∧ odGet (some tagTEXT)
          (odSet (some tagTEXT)
            (some (.generic ⟨tagTEXT, [], 0, 17⟩ [9])) c4state.blocks)
        = some (some (.generic ⟨tagTEXT, [], 0, 17⟩ [9])) := by
  have h := c4_last_wins 0 textBlockB [] c4state tagTEXT none
    (.generic ⟨tagTEXT, [], 0, 17⟩ [9])
    (by decide) (by decide) (by decide) (by decide) (by decide)
  exact h

/-- C7: for every successfully decoded axis or data block, the cell array
length equals the externally supplied element count, and the 16 header
bytes plus the block-body payload bytes (type and unit words included for
axis blocks) plus the unused bytes equal `header.size` exactly. -/
theorem c7_sizing :
    (∀ (mg : List Nat) (c : Nat) (s s1 : List Nat) (hd : Hdr) (ty un : Nat)
        (dom : List (List Nat)) (unus : List Nat),
        mg.length ≤ 4 →
        parseAXIS mg (some c) s = .ok (.axis hd ty un dom unus, s1) →
        okBytes s →
        dom.length = c ∧ 16 + (2 + c) * 4 + unus.length = hd.size)
  ∧ (∀ (c : Nat) (s s1 : List Nat) (hd : Hdr) (pay : List (List Nat))
        (unus : List Nat),
        parseDATA (some c) s = .ok (.data hd pay unus, s1) →
        okBytes s →
        pay.length = c ∧ 16 + 4 * c + unus.length = hd.size) := by
  constructor
  · intro mg c s s1 hd ty un dom unus hmg hp hs
    obtain ⟨hd2, ty2, un2, dom2, unus2, c2, hrec, hctx, hmgE, hbuildE,
      hokE, hlc, hlm, hsz, hlenE⟩ := parseAXIS_spec hp hs hmg
    injection hrec with e1 e2 e3 e4 e5
    subst e1
    subst e2
    subst e3
    subst e4
    subst e5
    injection hctx with e6
    subst e6
    exact ⟨hlc, hsz⟩
  · intro c s s1 hd pay unus hp hs
    obtain ⟨hd2, pay2, unus2, c2, hrec, hctx, hmgE, hbuildE, hokE, hlc,
      hlm, hsz, hlenE⟩ := parseDATA_spec hp hs
    injection hrec with e1 e2 e3
    subst e1
    subst e2
    subst e3
    injection hctx with e6
    subst e6
    exact ⟨hlc, hsz⟩

/-- C7 witness: the sizing invariant at a concrete XLST block (size 30,
one cell, two unused bytes) and a concrete DATA block (size 23, one cell,
three unused bytes). -/
theorem c7_sizing_witness :
    (([[9, 9, 9, 9]] : List (List Nat)).length = 1
        ∧ 16 + (2 + 1) * 4 + ([5, 5] : List Nat).length
          = (⟨tagXLST, [], 0, 30⟩ : Hdr).size)
      ∧ (([[1, 2, 3, 4]] : List (List Nat)).length = 1
        ∧ 16 + 4 * 1 + ([5, 6, 7] : List Nat).length
          = (⟨tagDATA, [], 0, 23⟩ : Hdr).size) := by
  constructor
  · exact c7_sizing.1 tagXLST 1 axisCexBytes [] ⟨tagXLST, [], 0, 30⟩ 1 2
      [[9, 9, 9, 9]] [5, 5] (by decide) (by decide) (by decide)
  · exact c7_sizing.2 1 dataCexBytes [] ⟨tagDATA, [], 0, 23⟩
      [[1, 2, 3, 4]] [5, 6, 7] (by decide) (by decide)

end SpecFP
